import Mathlib

/-!
Verification of the WoRMS taxonomic matching engine
(`src-v3/taxonomic_assignment/WoRMS_v3_matching.py`).

The Python source is shallowly embedded: pure string manipulation becomes
functions on `List Char` / `String`, Python dicts become association lists
(for record dicts, so that key *presence* is observable, as it is for pandas
columns) or lookup functions, and the two remote `pyworms` calls become an
explicit oracle record (`WormsApi`) whose results are `Except Unit _` values
(`.error` models a raised exception caught by the surrounding handler).
-/

set_option maxRecDepth 4000

/-! ## Python string primitives -/

/-- The whitespace characters of Python's `str.strip()` / `\s` for ASCII text. -/
def isPySpace (c : Char) : Bool :=
  c = ' ' || c = '\t' || c = '\n' || c = '\r' || c = '\x0b' || c = '\x0c'

/-- `str.strip()` on the character list representation. -/
def pstripL (l : List Char) : List Char :=
  ((l.dropWhile isPySpace).reverse.dropWhile isPySpace).reverse

/-- Python `str.strip()`. -/
def pstrip (s : String) : String :=
  String.mk (pstripL s.data)

/-- Python `str.lower()` (ASCII). -/
def lowerStr (s : String) : String :=
  String.mk (s.data.map Char.toLower)

/-- Python `str.rstrip(';')`. -/
def rstripSemi (s : String) : String :=
  String.mk ((s.data.reverse.dropWhile (fun c => c = ';')).reverse)

/-- Python `str.split(';')`: splitting the empty string yields one empty field. -/
def splitSemi : List Char → List (List Char)
  | [] => [[]]
  | c :: cs =>
    if c = ';' then [] :: splitSemi cs
    else
      match splitSemi cs with
      | [] => [[c]]
      | t :: ts => (c :: t) :: ts

/-- One pass of Python `str.replace(pat, '')`: left-to-right removal of
non-overlapping occurrences of `pat`.  `fuel` bounds the recursion; with
`fuel = l.length` and a non-empty pattern it scans the whole input. -/
def removeSubF (pat : List Char) : Nat → List Char → List Char
  | 0, l => l
  | _ + 1, [] => []
  | fuel + 1, c :: cs =>
    if pat.isPrefixOf (c :: cs) then removeSubF pat fuel ((c :: cs).drop pat.length)
    else c :: removeSubF pat fuel cs

/-- Python `str.replace(pat, '')` for a non-empty pattern. -/
def removeSub (pat l : List Char) : List Char :=
  removeSubF pat l.length l

/-- Whether the literal two-space substring occurs (Python `'  ' in name`). -/
def hasDoubleSpace : List Char → Bool
  | [] => false
  | [_] => false
  | a :: b :: rest => (a = ' ' && b = ' ') || hasDoubleSpace (b :: rest)

/-- Python `re.sub(r'\s+', ' ', name)`: each maximal whitespace run becomes a
single space.  `inRun` records whether the previous character was whitespace. -/
def collapseWsGo : Bool → List Char → List Char
  | _, [] => []
  | inRun, c :: cs =>
    if isPySpace c then
      if inRun then collapseWsGo true cs else ' ' :: collapseWsGo true cs
    else c :: collapseWsGo false cs

/-- Python `re.sub(r'\s+', ' ', name)`. -/
def collapseWs (l : List Char) : List Char :=
  collapseWsGo false l

/-- The separator replacement of source line 23:
`str.replace('_',' ').replace('-',' ').replace('/',' ')`. -/
def replSep (c : Char) : Char :=
  if c = '_' || c = '-' || c = '/' then ' ' else c

/-! ## The Lineage Normalizer (source lines 15-47, `parse_semicolon_taxonomy`) -/

/-- The per-token cleaning of source lines 32-43: strip the literal substrings
`" sp."` then `" spp."`, remove digits when a digit is present, collapse
whitespace runs when a double space is present, and strip. -/
def cleanName (n : List Char) : List Char :=
  let n1 := removeSub (" spp.".data) (removeSub (" sp.".data) n)
  let n2 := if n1.any Char.isDigit then n1.filter (fun c => !c.isDigit) else n1
  let n3 := if hasDoubleSpace n2 then collapseWs n2 else n2
  pstripL n3

/-- Source lines 15-47.  The argument is `none` when the cell holds a pandas
missing value (`pd.isna`).  Splits a semicolon-separated lineage string into
cleaned taxon terms. -/
def parse_semicolon_taxonomy (tax_string : Option String) : List String :=
  match tax_string with
  | none => []
  | some s =>
    if pstrip s = "" then []
    else
      (splitSemi (s.data.map replSep)).filterMap (fun tok =>
        let name := pstripL tok
        if name = [] || (name.map Char.toLower) = ("unassigned".data) then none
        else
          let name2 := cleanName name
          if name2 ≠ [] ∧ name2.length > 1 then some (String.mk name2) else none)

/-! ## Data model: dicts, records, keys, caches -/

/-- A Python dict used as a record, embedded as an association list so that
key *presence* (and hence presence of a pandas column after merge-back) is
observable.  Lookup takes the first binding, so prepending a binding models
`d[k] = v` / `{**d, k: v}` overriding. -/
def Dict : Type := List (String × Option String)

instance : DecidableEq Dict := by
  unfold Dict
  infer_instance

/-- First-binding association-list lookup (`d.get(k)` / `k in d`). -/
def alookup {α β : Type} [DecidableEq α] : List (α × β) → α → Option β
  | [], _ => none
  | (k, v) :: r, k2 => if k2 = k then some v else alookup r k2

/-- Lookup in a record dict. -/
def dget (d : Dict) (k : String) : Option (Option String) :=
  alookup d k

/-- Source line 13: the standard Darwin Core ranks. -/
def DWC_RANKS_STD : List String :=
  ["kingdom", "phylum", "class", "order", "family", "genus", "species"]

/-- One row of the occurrence dataframe (the two columns the engine reads).
`verbatimIdentification` is `none` for a pandas missing value. -/
structure Row where
  verbatimIdentification : Option String
  assay_name : String
deriving DecidableEq

/-- The `_map_key` column value of a row (source lines 123-140): either the
`'IS_TRULY_EMPTY'` sentinel or the `(verbatimIdentification, assay_name)`
tuple. -/
inductive MapKey
  | trulyEmpty
  | pair (verbatim : String) (assay : String)
deriving DecidableEq

/-- The `results_cache` dict, keyed by `_map_key` values. -/
def Cache : Type := List (MapKey × Dict)

instance : DecidableEq Cache := by
  unfold Cache
  infer_instance

/-- `results_cache[k] = d`. -/
def cacheInsert (c : Cache) (k : MapKey) (d : Dict) : Cache :=
  (k, d) :: c

/-- `results_cache.get(k)`. -/
def clookup (c : Cache) (k : MapKey) : Option Dict :=
  alookup c k

/-- A record returned by the remote WoRMS service, with the fields the engine
reads via `.get` (`none` = key absent or null).  `ranks` gives the value the
record holds for a (lower-cased) standard rank name. -/
structure WormsRecord where
  status : Option String
  scientificname : Option String
  lsid : Option String
  rank : Option String
  ranks : String → Option String

/-- The remote service plus the process-pool environment.
`aphiaRecordByAphiaID id = .error ()` models `pyworms.aphiaRecordByAphiaID`
raising (caught at source line 64); `.ok none` models a falsy / non-dict
result.  `aphiaRecordsByMatchNames` returns, per §6 of the spec, one ordered
candidate list per queried name (positionally aligned with the query);
`.error ()` models the call raising (caught at source lines 98 and 301), and a
`none` candidate models a falsy entry (source line 82 `if match`).
`poolFailure` models `mp.Pool`/`pool.map` itself raising in Stage 2 (source
line 268), which triggers the sequential fallback path. -/
structure WormsApi where
  aphiaRecordByAphiaID : Nat → Except Unit (Option WormsRecord)
  aphiaRecordsByMatchNames : List String → Except Unit (List (List (Option WormsRecord)))
  poolFailure : Bool

/-- The `params_dict` entries the engine reads (source lines 103-111), after
key-missing defaults: `assays_to_skip_species_match` is `none` when the key is
missing or explicitly `None` (both default to `[]` at source lines 104-108);
`pr2_worms_dict` maps a species-level name to an AphiaID; `assay_rank_info`
maps an assay name to its configured `max_depth`
(`assay_rank_info.get(assay, {}).get('max_depth', 99)`). -/
structure Params where
  taxonomic_api_source : String
  assays_to_skip_species_match : Option (List String)
  pr2_worms_dict : List (String × Nat)
  assay_rank_info : List (String × Nat)

/-- `assay_rank_info.get(assay_name, {}).get('max_depth', 99)` (source line 312). -/
def maxDepthFor (info : List (String × Nat)) (assay : String) : Nat :=
  (alookup info assay).getD 99

/-- `';'.join(parsed_names)`. -/
def joinSemi (l : List String) : String :=
  String.intercalate ";" l

/-! ## Workers (source lines 49-99) -/

/-- The failure dict of source line 67. -/
def failureAphiaDict (aphia_id : Nat) : Dict :=
  [("match_type_debug", some ("Failure_AphiaID_" ++ toString aphia_id))]

/-- Source lines 49-67: fetch a full record by AphiaID; on an accepted record
build the result dict (including all standard ranks), otherwise — record
falsy, status not accepted, or exception — return the failure dict, which has
no `scientificName` key. -/
def get_worms_classification_by_id_worker (api : WormsApi) (aphia_id_to_check : Nat)
    (api_source_for_record : String) : Dict :=
  match api.aphiaRecordByAphiaID aphia_id_to_check with
  | .ok (some record) =>
    if record.status = some "accepted" then
      [("scientificName", record.scientificname),
       ("scientificNameID", record.lsid),
       ("taxonRank", record.rank),
       ("nameAccordingTo", some api_source_for_record),
       ("match_type_debug", some ("Success_AphiaID_" ++ toString aphia_id_to_check))]
      ++ DWC_RANKS_STD.map (fun rank_std => (rank_std, record.ranks (lowerStr rank_std)))
    else failureAphiaDict aphia_id_to_check
  | _ => failureAphiaDict aphia_id_to_check

/-- Source lines 81-94: scan one name's candidate list in order and keep the
first accepted match. -/
def firstAcceptedMatch : List (Option WormsRecord) → Option WormsRecord
  | [] => none
  | none :: rest => firstAcceptedMatch rest
  | some m :: rest =>
    if m.status = some "accepted" then some m else firstAcceptedMatch rest

/-- The per-term result dict built at source lines 84-91. -/
def batchResultDict (m : WormsRecord) : Dict :=
  [("scientificName", m.scientificname),
   ("scientificNameID", m.lsid),
   ("taxonRank", m.rank)]
  ++ DWC_RANKS_STD.map (fun rank => (rank, m.ranks (lowerStr rank)))

/-- Source lines 69-99, `get_worms_batch_worker`: match one batch of names; an
exception anywhere in the batch yields an empty result.  The response is
positionally aligned with the queried chunk (spec §6), so pairing is a zip. -/
def get_worms_batch_worker (api : WormsApi) (chunk : List String) : List (String × Dict) :=
  match api.aphiaRecordsByMatchNames chunk with
  | .error _ => []
  | .ok raw =>
    (List.zip chunk raw).filterMap (fun p =>
      (firstAcceptedMatch p.2).map (fun m => (p.1, batchResultDict m)))

/-! ## Key construction and deduplication (source lines 123-143) -/

/-- Source lines 124-126, `empty_verbatim_mask`: missing, or stripping to the
empty string, or stripping to case-insensitive `"unassigned"`. -/
def emptyVerbatimMask : Option String → Bool
  | none => true
  | some s => pstrip s = "" || lowerStr (pstrip s) = "unassigned"

/-- Source lines 128-140: the `_map_key` column value of a row. -/
def mapKeyOf (r : Row) : MapKey :=
  match r.verbatimIdentification with
  | none => .trulyEmpty
  | some s =>
    if pstrip s = "" || lowerStr (pstrip s) = "unassigned" then .trulyEmpty
    else .pair s r.assay_name

/-- First-occurrence deduplication with an accumulator of already-seen
elements; `dedupList l = dedupGo [] l` models `drop_duplicates()` (and is the
deterministic order chosen for `list(set(...))`). -/
def dedupGo {α : Type} [DecidableEq α] (seen : List α) : List α → List α
  | [] => []
  | a :: as => if a ∈ seen then dedupGo seen as else a :: dedupGo (a :: seen) as

/-- First-occurrence deduplication. -/
def dedupList {α : Type} [DecidableEq α] (l : List α) : List α :=
  dedupGo [] l

/-- Source lines 133-142, `unique_tuples_to_process`: the distinct
`(verbatimIdentification, assay_name)` pairs of the non-empty rows, in first
occurrence order. -/
def uniqueTuples (rows : List Row) : List (String × String) :=
  dedupList (rows.filterMap (fun r =>
    match r.verbatimIdentification with
    | none => none
    | some s =>
      if pstrip s = "" || lowerStr (pstrip s) = "unassigned" then none
      else some (s, r.assay_name)))

/-! ## Fast-Path Classifier (source lines 148-188) -/

/-- Source line 152: `str(verbatim_str).strip().rstrip(';').strip()`. -/
def cleanedVerbatim (v : String) : String :=
  pstrip (rstripSemi (pstrip v))

/-- Source lines 155-157 (for a non-missing string): empty after cleaning, or
case-insensitively one of `unassigned`/`nan`/`none`/the empty string. -/
def isTrulyEmptyCase (v : String) : Bool :=
  cleanedVerbatim v = "" ||
    lowerStr (cleanedVerbatim v) ∈ ["unassigned", "nan", "none", ""]

/-- The universal incertae-sedis record dict (source lines 158-167, 172-181,
361-370 and 376-385 all build this shape). -/
def incertaeSedisDict (api_source label cleaned : String) : Dict :=
  [("scientificName", some "incertae sedis"),
   ("scientificNameID", some "urn:lsid:marinespecies.org:taxname:12"),
   ("taxonRank", none),
   ("nameAccordingTo", some api_source),
   ("match_type_debug", some label),
   ("cleanedTaxonomy", some cleaned)]
  ++ DWC_RANKS_STD.map (fun col => (col, none))

/-- Whether the fast path handles a verbatim string (either branch of source
lines 155-183). -/
def handledCase (v : String) : Bool :=
  isTrulyEmptyCase v || lowerStr (cleanedVerbatim v) ∈ ["eukaryota"]

/-- One iteration of the loop at source lines 150-183.  The accumulator pairs
`results_cache` with `cases_to_handle`. -/
def fastPathStep (api_source : String) (acc : Cache × List (String × String))
    (t : String × String) : Cache × List (String × String) :=
  let c := cleanedVerbatim t.1
  if isTrulyEmptyCase t.1 then
    (cacheInsert acc.1 (.pair t.1 t.2) (incertaeSedisDict api_source "incertae_sedis_unassigned" c),
     acc.2 ++ [t])
  else if lowerStr c ∈ ["eukaryota"] then
    (cacheInsert acc.1 (.pair t.1 t.2)
       (incertaeSedisDict api_source ("incertae_sedis_simple_case_" ++ c) c),
     acc.2 ++ [t])
  else acc

/-- Source lines 148-183: classify every unique tuple, caching the handled
ones.  No remote call is involved: this function does not receive the API. -/
def fastPath (api_source : String) (tuples : List (String × String)) :
    Cache × List (String × String) :=
  tuples.foldl (fastPathStep api_source) ([], [])

/-! ## Stage 1: PR2 AphiaID pre-matching (source lines 190-233) -/

/-- Append a tuple to the group of `aphia_id` in `aphia_id_map` (source lines
206-208), creating the group at the end on first use (Python dict insertion
order). -/
def groupAppend (groups : List (Nat × List (String × String))) (aphia_id : Nat)
    (t : String × String) : List (Nat × List (String × String)) :=
  match groups with
  | [] => [(aphia_id, [t])]
  | g :: gs =>
    if g.1 = aphia_id then (g.1, g.2 ++ [t]) :: gs
    else g :: groupAppend gs aphia_id t

/-- The dictionary decision of source lines 196-210 for one tuple: `none`
means the tuple is appended to `unmatched_tuples` (assay skips species, no
parsed names, or no PR2 hit); `some id` means it joins the group of `id`. -/
def pr2Hit (skip : List String) (pr2 : List (String × Nat)) (t : String × String) :
    Option Nat :=
  if t.2 ∈ skip then none
  else
    match (parse_semicolon_taxonomy (some t.1)).getLast? with
    | none => none
    | some species_name => alookup pr2 species_name

/-- The loop at source lines 195-210: partition the tuples into the
`aphia_id_map` groups and the `unmatched_tuples` list. -/
def stage1Partition (skip : List String) (pr2 : List (String × Nat))
    (tuples : List (String × String)) :
    List (Nat × List (String × String)) × List (String × String) :=
  tuples.foldl (fun acc t =>
    match pr2Hit skip pr2 t with
    | some aphia_id => (groupAppend acc.1 aphia_id t, acc.2)
    | none => (acc.1, acc.2 ++ [t])) ([], [])

/-- Source lines 218-229: consume one fetched result.  A result carrying a
`scientificName` key is cached for every tuple of the group, each with its own
`cleanedTaxonomy`; otherwise the whole group is appended to
`unmatched_tuples`. -/
def stage1Resolve (api : WormsApi) (api_source : String)
    (acc : Cache × List (String × String)) (g : Nat × List (String × String)) :
    Cache × List (String × String) :=
  let result := get_worms_classification_by_id_worker api g.1 api_source
  if (dget result "scientificName").isSome then
    (g.2.foldl (fun c t =>
       let parsed_names := parse_semicolon_taxonomy (some t.1)
       let cleaned_taxonomy := if parsed_names ≠ [] then joinSemi parsed_names else t.1
       cacheInsert c (.pair t.1 t.2) (("cleanedTaxonomy", some cleaned_taxonomy) :: result))
      acc.1,
     acc.2)
  else (acc.1, acc.2 ++ g.2)

/-- Source lines 190-233, Stage 1.  When `pr2_worms_dict` is empty the stage
is skipped and every tuple is left unmatched (source line 233). -/
def stage1 (api : WormsApi) (api_source : String) (skip : List String)
    (pr2 : List (String × Nat)) (cache : Cache) (tuples : List (String × String)) :
    Cache × List (String × String) :=
  if pr2 ≠ [] then
    let part := stage1Partition skip pr2 tuples
    part.1.foldl (stage1Resolve api api_source) (cache, part.2)
  else (cache, tuples)

/-! ## Stage 2: batch name matching (source lines 235-344) -/

/-- Source lines 248-251: split the global term list into batches of
`chunk_size` (50).  `fuel` bounds the recursion; `fuel = l.length` covers the
whole list. -/
def chunkListF {α : Type} (n : Nat) : Nat → List α → List (List α)
  | 0, _ => []
  | _ + 1, [] => []
  | fuel + 1, c :: cs => (c :: cs.take (n - 1)) :: chunkListF n fuel (cs.drop (n - 1))

/-- Split a list into consecutive chunks of size `n`. -/
def chunkList {α : Type} (n : Nat) (l : List α) : List (List α) :=
  chunkListF n l.length l

/-- The global term lookup table built in Stage 2 (`batch_lookup`). -/
def BatchLookup : Type := String → Option Dict

/-- `batch_lookup.update(batch_result)` (source line 263): later assignments
override. -/
def updateLookup (blk : BatchLookup) (entries : List (String × Dict)) : BatchLookup :=
  entries.foldl (fun b e => fun t => if t = e.1 then some e.2 else b t) blk

/-- The parallel path of source lines 255-266: run the batch worker on every
chunk and merge the results in batch order. -/
def buildBatchLookup (api : WormsApi) (chunks : List (List String)) : BatchLookup :=
  chunks.foldl (fun blk chunk => updateLookup blk (get_worms_batch_worker api chunk))
    (fun _ => none)

/-- The sequential fallback of source lines 272-302, whose per-batch body
duplicates the worker's: each batch is fetched and folded in on its own, and a
batch that raises contributes nothing. -/
def buildBatchLookupSeq (api : WormsApi) (chunks : List (List String)) : BatchLookup :=
  chunks.foldl (fun blk chunk =>
    match api.aphiaRecordsByMatchNames chunk with
    | .error _ => blk
    | .ok raw =>
      updateLookup blk ((List.zip chunk raw).filterMap (fun p =>
        (firstAcceptedMatch p.2).map (fun m => (p.1, batchResultDict m)))))
    (fun _ => none)

/-- The term sequence a tuple is matched with in Stage 2 (source lines
307-320): `none` models the two `continue`-into-`still_unmatched_batch` exits
(no parsed names, or nothing left after dropping the most specific term). -/
def stage2Terms (skip : List String) (info : List (String × Nat)) (v a : String) :
    Option (List String) :=
  let parsed_names := parse_semicolon_taxonomy (some v)
  if parsed_names = [] then none
  else
    let is_full_length := decide (parsed_names.length ≥ maxDepthFor info a)
    if a ∈ skip ∧ is_full_length then
      let dropped := parsed_names.dropLast
      if dropped = [] then none else some dropped
    else some parsed_names

/-- Source lines 327-338: scan the (already reversed) term sequence and take
the first term present in `batch_lookup`. -/
def firstBatchHit (blk : BatchLookup) : List String → Option (String × Dict)
  | [] => none
  | term :: rest =>
    match blk term with
    | some d => some (term, d)
    | none => firstBatchHit blk rest

/-- One iteration of the loop at source lines 305-343 for one unmatched
tuple: compute the (possibly truncated) term sequence, record the cleaned
taxonomy, scan most-specific-first, and either cache the hit or collect the
tuple into `still_unmatched_batch`. -/
def stage2AssignStep (api_source : String) (skip : List String)
    (info : List (String × Nat)) (blk : BatchLookup)
    (acc : Cache × List (String × String)) (t : String × String) :
    Cache × List (String × String) :=
  match stage2Terms skip info t.1 t.2 with
  | none => (acc.1, acc.2 ++ [t])
  | some parsed_names =>
    let cleaned_taxonomy := if parsed_names ≠ [] then joinSemi parsed_names else t.1
    match firstBatchHit blk parsed_names.reverse with
    | some hit =>
      (cacheInsert acc.1 (.pair t.1 t.2)
         (("cleanedTaxonomy", some cleaned_taxonomy) ::
          ("match_type_debug", some ("Success_Batch_" ++ hit.1)) ::
          ("nameAccordingTo", some api_source) :: hit.2),
       acc.2)
    | none => (acc.1, acc.2 ++ [t])

/-- The loop at source lines 305-343: try to match every unmatched tuple
against the term lookup table, caching hits and collecting
`still_unmatched_batch`. -/
def stage2Assign (api_source : String) (skip : List String) (info : List (String × Nat))
    (blk : BatchLookup) (cache : Cache) (unmatched : List (String × String)) :
    Cache × List (String × String) :=
  unmatched.foldl (stage2AssignStep api_source skip info blk) (cache, [])

/-- Source lines 235-344, Stage 2.  Nothing happens when no tuples are
unmatched; the matching loop (and hence any cache update) happens only when
the global term list is non-empty (it is nested under source line 241's
`if all_terms_to_match:`). -/
def stage2 (api : WormsApi) (api_source : String) (skip : List String)
    (info : List (String × Nat)) (cache : Cache) (unmatched : List (String × String)) :
    Cache × List (String × String) :=
  if unmatched = [] then (cache, unmatched)
  else
    let all_terms_to_match :=
      dedupList (unmatched.flatMap (fun t => parse_semicolon_taxonomy (some t.1)))
    if all_terms_to_match = [] then (cache, unmatched)
    else
      let chunks := chunkList 50 all_terms_to_match
      let blk := if api.poolFailure then buildBatchLookupSeq api chunks
        else buildBatchLookup api chunks
      stage2Assign api_source skip info blk cache unmatched

/-! ## Final assembly (source lines 346-398) -/

/-- The `cleanedTaxonomy` recomputed for a finally-unmatched tuple (source
lines 351-359): same depth-truncation policy as Stage 2, but falling back to
the raw verbatim string when no term remains. -/
def finalCleanedTaxonomy (skip : List String) (info : List (String × Nat))
    (v a : String) : String :=
  let parsed_names := parse_semicolon_taxonomy (some v)
  let is_full_length := decide (parsed_names.length ≥ maxDepthFor info a)
  let parsed2 := if a ∈ skip ∧ is_full_length ∧ parsed_names ≠ [] then
    parsed_names.dropLast else parsed_names
  if parsed2 ≠ [] then joinSemi parsed2 else v

/-- Source lines 346-372: every tuple still unmatched receives the
`Failed_All_Stages_NoMatch` incertae-sedis record. -/
def finalUnmatched (api_source : String) (skip : List String)
    (info : List (String × Nat)) (cache : Cache) (unmatched : List (String × String)) :
    Cache :=
  unmatched.foldl (fun c t =>
    cacheInsert c (.pair t.1 t.2)
      (incertaeSedisDict api_source "Failed_All_Stages_NoMatch"
        (finalCleanedTaxonomy skip info t.1 t.2))) cache

/-- Source lines 376-385: the record unconditionally stored under the
`'IS_TRULY_EMPTY'` sentinel key. -/
def sentinelDict (api_source : String) : Dict :=
  incertaeSedisDict api_source "incertae_sedis_truly_empty_fallback" ""

/-- The complete `results_cache` at source line 387, after all stages, over
the already-extracted configuration values (source lines 103-111). -/
def results_cache_core (api : WormsApi) (api_source : String) (skip : List String)
    (info : List (String × Nat)) (pr2 : List (String × Nat)) (occurrence_df : List Row) :
    Cache :=
  let uniq := uniqueTuples occurrence_df
  let fp := fastPath api_source uniq
  let remaining := uniq.filter (fun t => t ∉ fp.2)
  let s1 := stage1 api api_source skip pr2 fp.1 remaining
  let s2 := stage2 api api_source skip info s1.1 s1.2
  let c3 := finalUnmatched api_source skip info s2.1 s2.2
  cacheInsert c3 .trulyEmpty (sentinelDict api_source)

/-- The complete `results_cache` at source line 387, after all stages. -/
def worms_results_cache (api : WormsApi) (occurrence_df : List Row) (params : Params) :
    Cache :=
  results_cache_core api params.taxonomic_api_source
    (params.assays_to_skip_species_match.getD []) params.assay_rank_info
    params.pr2_worms_dict occurrence_df

/-- Source lines 101-398, `get_worms_match_for_dataframe`: each row of the
returned dataframe is the original row together with the `ClassificationRecord`
dict mapped onto it from `results_cache` via its `_map_key` (source lines
387-394); a `none` record models an all-NaN result row. -/
def get_worms_match_for_dataframe (api : WormsApi) (occurrence_df : List Row)
    (params : Params) : List (Row × Option Dict) :=
  occurrence_df.map (fun r => (r, clookup (worms_results_cache api occurrence_df params) (mapKeyOf r)))

/-- A complete `ClassificationRecord`: the `scientificName` key is present
with a non-null value, and all seven standard rank keys are present (possibly
null). -/
def RecordOK (d : Dict) : Prop :=
  (∃ s, dget d "scientificName" = some (some s)) ∧
  ∀ rk ∈ DWC_RANKS_STD, (dget d rk).isSome = true

/-- A well-behaved remote service (spec §6): any record it returns whose
status is accepted carries a scientific name. -/
def WFApi (api : WormsApi) : Prop :=
  (∀ aid r, api.aphiaRecordByAphiaID aid = .ok (some r) →
     r.status = some "accepted" → r.scientificname.isSome = true) ∧
  (∀ chunk raw l m, api.aphiaRecordsByMatchNames chunk = .ok raw → l ∈ raw →
     some m ∈ l → m.status = some "accepted" → m.scientificname.isSome = true)

/-- Every record in the cache is complete. -/
def CacheOK (c : Cache) : Prop :=
  ∀ k d, clookup c k = some d → RecordOK d

/-- The record the fast path assigns for a handled verbatim string. -/
def fastRecord (s v : String) : Dict :=
  if isTrulyEmptyCase v then
    incertaeSedisDict s "incertae_sedis_unassigned" (cleanedVerbatim v)
  else
    incertaeSedisDict s ("incertae_sedis_simple_case_" ++ cleanedVerbatim v)
      (cleanedVerbatim v)

/-- Membership of a tuple in an `aphia_id_map` group. -/
def inGroups (gs : List (Nat × List (String × String))) (aid : Nat)
    (t : String × String) : Prop :=
  ∃ g ∈ gs, g.1 = aid ∧ t ∈ g.2

/-- The body of the Stage-1 partition fold. -/
def s1step (skip : List String) (pr2 : List (String × Nat))
    (acc : List (Nat × List (String × String)) × List (String × String))
    (t : String × String) :
    List (Nat × List (String × String)) × List (String × String) :=
  match pr2Hit skip pr2 t with
  | some aphia_id => (groupAppend acc.1 aphia_id t, acc.2)
  | none => (acc.1, acc.2 ++ [t])

/-- The record Stage 1 caches for one tuple of a successful group (source
lines 220-227). -/
def stage1Record (result : Dict) (t : String × String) : Dict :=
  let parsed_names := parse_semicolon_taxonomy (some t.1)
  let cleaned_taxonomy := if parsed_names ≠ [] then joinSemi parsed_names else t.1
  ("cleanedTaxonomy", some cleaned_taxonomy) :: result

/-- Every entry in the term lookup table is a complete record. -/
def BlkOK (blk : BatchLookup) : Prop :=
  ∀ term d, blk term = some d → RecordOK d

/-- The record Stage 2 caches on a batch hit (source lines 331-336). -/
def stage2Record (s cleaned : String) (hit : String × Dict) : Dict :=
  ("cleanedTaxonomy", some cleaned) ::
  ("match_type_debug", some ("Success_Batch_" ++ hit.1)) ::
  ("nameAccordingTo", some s) :: hit.2

/-- Per-tuple outcome of the Stage-2 matching loop: `some d` when the loop
caches `d` for the tuple, `none` when the tuple joins
`still_unmatched_batch`. -/
def stage2Val (s : String) (skip : List String) (info : List (String × Nat))
    (blk : BatchLookup) (t : String × String) : Option Dict :=
  match stage2Terms skip info t.1 t.2 with
  | none => none
  | some parsed_names =>
    match firstBatchHit blk parsed_names.reverse with
    | none => none
    | some hit =>
      some (stage2Record s (if parsed_names ≠ [] then joinSemi parsed_names else t.1) hit)

/-- `all_terms_to_match` (source line 237), in first-occurrence order. -/
def stage2AllTerms (u : List (String × String)) : List String :=
  dedupList (u.flatMap (fun t => parse_semicolon_taxonomy (some t.1)))

/-- The lookup table Stage 2 uses: parallel path, or sequential fallback when
the pool itself fails. -/
def stage2BlkOf (api : WormsApi) (u : List (String × String)) : BatchLookup :=
  if api.poolFailure then buildBatchLookupSeq api (chunkList 50 (stage2AllTerms u))
  else buildBatchLookup api (chunkList 50 (stage2AllTerms u))

/-- An environment in which every remote call raises: the engine must still
classify every row (all failures are caught). -/
def wErrApi : WormsApi := ⟨fun _ => .error (), fun _ => .error (), false⟩

/-- The term lookup table used by the C5 witness: only "Bb" matches. -/
def wBlkB : BatchLookup :=
  fun term => if term = "Bb" then some [("scientificName", some "BbSci")] else none

/-- An accepted record for the C6 witness. -/
def wAccRec : WormsRecord :=
  ⟨some "accepted", some "GgSci", some "lsid:g", some "genus", fun _ => none⟩

/-- A batch service that answers the batch ["Gg"] and raises on any other. -/
def wFlakyApi : WormsApi :=
  ⟨fun _ => .error (),
   fun chunk => if chunk = ["Gg"] then .ok [[some wAccRec]] else .error (),
   false⟩

/-- The dataframe for the C8 witness. -/
def wDf8 : List Row := [⟨some "eUkaryota", "A"⟩, ⟨some "Bacteria", "A"⟩]

/-- A service whose by-ID fetch always returns a non-accepted record. -/
def wUnaccRec : WormsRecord :=
  ⟨some "unaccepted", some "BbSci", none, none, fun _ => none⟩

/-- A service whose by-ID fetch always returns a non-accepted record. -/
def wUnaccApi : WormsApi :=
  ⟨fun _ => .ok (some wUnaccRec), fun _ => .error (), false⟩

/-- The dataframe for the C10 witness: both tokens of "1;2" are digit-only
and are dropped by the normalizer. -/
def wDf10 : List Row := [⟨some "1;2", "A"⟩]

/-- The dataframe for the C3 witness: two rows share one key. -/
def wDf3 : List Row := [⟨some "Aa;Bb", "A"⟩, ⟨some "Aa;Bb", "A"⟩]

/-- The dataframe for the C1 witness. -/
def wDf1 : List Row := [⟨some "Aa;Bb", "X"⟩]

/-! ## Basic lemmas: lookups, dedup -/

@[simp] theorem alookup_nil {α β : Type} [DecidableEq α] (k : α) :
    alookup ([] : List (α × β)) k = none := rfl

theorem alookup_cons {α β : Type} [DecidableEq α] (k k2 : α) (v : β) (r : List (α × β)) :
    alookup ((k, v) :: r) k2 = if k2 = k then some v else alookup r k2 := rfl

@[simp] theorem alookup_cons_self {α β : Type} [DecidableEq α] (k : α) (v : β)
    (r : List (α × β)) : alookup ((k, v) :: r) k = some v := by
  simp [alookup_cons]

theorem alookup_cons_ne {α β : Type} [DecidableEq α] {k k2 : α} (v : β)
    (r : List (α × β)) (h : k2 ≠ k) : alookup ((k, v) :: r) k2 = alookup r k2 := by
  simp [alookup_cons, h]

theorem clookup_cacheInsert_self (c : Cache) (k : MapKey) (d : Dict) :
    clookup (cacheInsert c k d) k = some d := by
  simp [clookup, cacheInsert]

theorem clookup_cacheInsert_ne (c : Cache) {k k2 : MapKey} (d : Dict) (h : k2 ≠ k) :
    clookup (cacheInsert c k d) k2 = clookup c k2 := by
  simp [clookup, cacheInsert, alookup_cons, h]

theorem clookup_cacheInsert_isSome (c : Cache) (k k2 : MapKey) (d : Dict)
    (h : (clookup c k2).isSome) : (clookup (cacheInsert c k d) k2).isSome := by
  by_cases hk : k2 = k
  · subst hk; simp [clookup_cacheInsert_self]
  · rwa [clookup_cacheInsert_ne c d hk]

theorem mem_dedupGo {α : Type} [DecidableEq α] (seen : List α) (l : List α) (a : α) :
    a ∈ dedupGo seen l ↔ a ∈ l ∧ a ∉ seen := by
  induction l generalizing seen with
  | nil => simp [dedupGo]
  | cons b bs ih =>
    by_cases hb : b ∈ seen
    · rw [show dedupGo seen (b :: bs) = dedupGo seen bs from by simp [dedupGo, hb], ih]
      constructor
      · rintro ⟨h1, h2⟩
        exact ⟨List.mem_cons_of_mem _ h1, h2⟩
      · rintro ⟨h1, h2⟩
        rcases List.mem_cons.mp h1 with rfl | h1
        · exact absurd hb h2
        · exact ⟨h1, h2⟩
    · rw [show dedupGo seen (b :: bs) = b :: dedupGo (b :: seen) bs from by simp [dedupGo, hb]]
      constructor
      · intro h
        rcases List.mem_cons.mp h with rfl | h
        · exact ⟨List.mem_cons_self _ _, hb⟩
        · rcases (ih _).mp h with ⟨h1, h2⟩
          refine ⟨List.mem_cons_of_mem _ h1, fun hc => h2 (List.mem_cons_of_mem _ hc)⟩
      · rintro ⟨h1, h2⟩
        rcases List.mem_cons.mp h1 with rfl | h1
        · exact List.mem_cons_self _ _
        · by_cases hab : a = b
          · subst hab; exact List.mem_cons_self _ _
          · refine List.mem_cons_of_mem _ ((ih _).mpr ⟨h1, ?_⟩)
            intro hc
            rcases List.mem_cons.mp hc with h | h
            · exact hab h
            · exact h2 h

theorem nodup_dedupGo {α : Type} [DecidableEq α] (seen : List α) (l : List α) :
    (dedupGo seen l).Nodup := by
  induction l generalizing seen with
  | nil => simp [dedupGo]
  | cons b bs ih =>
    by_cases hb : b ∈ seen
    · rw [show dedupGo seen (b :: bs) = dedupGo seen bs from by simp [dedupGo, hb]]
      exact ih seen
    · rw [show dedupGo seen (b :: bs) = b :: dedupGo (b :: seen) bs from by simp [dedupGo, hb]]
      refine List.nodup_cons.mpr ⟨?_, ih (b :: seen)⟩
      intro hmem
      rcases (mem_dedupGo _ _ _).1 hmem with ⟨_, h2⟩
      exact h2 (List.mem_cons_self b seen)

theorem mem_dedupList {α : Type} [DecidableEq α] (l : List α) (a : α) :
    a ∈ dedupList l ↔ a ∈ l := by
  simp [dedupList, mem_dedupGo]

theorem nodup_dedupList {α : Type} [DecidableEq α] (l : List α) :
    (dedupList l).Nodup := nodup_dedupGo [] l

/-! ## Record well-formedness -/

theorem dget_cons_ne {k k2 : String} (v : Option String) (d : Dict) (h : k2 ≠ k) :
    dget ((k, v) :: d) k2 = dget d k2 := alookup_cons_ne v d h

theorem dget_incertae_sci (s label c : String) :
    dget (incertaeSedisDict s label c) "scientificName" = some (some "incertae sedis") := rfl

theorem dget_incertae_debug (s label c : String) :
    dget (incertaeSedisDict s label c) "match_type_debug" = some (some label) := rfl

theorem dget_incertae_cleaned (s label c : String) :
    dget (incertaeSedisDict s label c) "cleanedTaxonomy" = some (some c) := rfl

theorem recordOK_incertaeSedisDict (s label c : String) :
    RecordOK (incertaeSedisDict s label c) := by
  refine ⟨⟨"incertae sedis", rfl⟩, ?_⟩
  intro rk hrk
  fin_cases hrk <;> rfl

/-- The worker result carries a `scientificName` key exactly when the fetch
returned an accepted record (source lines 52-67). -/
theorem worker_sci_isSome_iff (api : WormsApi) (aid : Nat) (s : String) :
    (dget (get_worms_classification_by_id_worker api aid s) "scientificName").isSome = true ↔
    ∃ r, api.aphiaRecordByAphiaID aid = .ok (some r) ∧ r.status = some "accepted" := by
  unfold get_worms_classification_by_id_worker
  cases hres : api.aphiaRecordByAphiaID aid with
  | error e =>
    simp only [hres]
    constructor
    · intro h; exact absurd h (by simp [failureAphiaDict, dget, alookup])
    · rintro ⟨r, hr, _⟩; cases hr
  | ok o =>
    cases o with
    | none =>
      simp only [hres]
      constructor
      · intro h; exact absurd h (by simp [failureAphiaDict, dget, alookup])
      · rintro ⟨r, hr, _⟩; cases hr
    | some r =>
      simp only [hres]
      by_cases hacc : r.status = some "accepted"
      · simp only [if_pos hacc]
        constructor
        · intro _; exact ⟨r, rfl, hacc⟩
        · intro _; rfl
      · simp only [if_neg hacc]
        constructor
        · intro h; exact absurd h (by simp [failureAphiaDict, dget, alookup])
        · rintro ⟨r2, hr2, hacc2⟩
          obtain rfl : r = r2 := by cases hr2; rfl
          exact absurd hacc2 hacc

/-- On an accepted fetch the worker result is the literal success dict. -/
theorem worker_eq_success (api : WormsApi) (aid : Nat) (s : String) (r : WormsRecord)
    (hres : api.aphiaRecordByAphiaID aid = .ok (some r))
    (hacc : r.status = some "accepted") :
    get_worms_classification_by_id_worker api aid s =
      [("scientificName", r.scientificname),
       ("scientificNameID", r.lsid),
       ("taxonRank", r.rank),
       ("nameAccordingTo", some s),
       ("match_type_debug", some ("Success_AphiaID_" ++ toString aid))]
      ++ DWC_RANKS_STD.map (fun rank_std => (rank_std, r.ranks (lowerStr rank_std))) := by
  unfold get_worms_classification_by_id_worker
  rw [hres]
  simp [hacc]

/-- A failed or non-accepted fetch yields the bare failure dict. -/
theorem worker_eq_failure (api : WormsApi) (aid : Nat) (s : String)
    (h : ∀ r, api.aphiaRecordByAphiaID aid = .ok (some r) → r.status ≠ some "accepted") :
    get_worms_classification_by_id_worker api aid s = failureAphiaDict aid := by
  unfold get_worms_classification_by_id_worker
  cases hres : api.aphiaRecordByAphiaID aid with
  | error e => rfl
  | ok o =>
    cases o with
    | none => rfl
    | some r => simp [h r hres]

/-- The dict Stage 1 caches for a tuple is a complete record. -/
theorem recordOK_stage1_insert (api : WormsApi) (aid : Nat) (s : String)
    (x : Option String) (hWF : WFApi api)
    (hsci : (dget (get_worms_classification_by_id_worker api aid s) "scientificName").isSome = true) :
    RecordOK (("cleanedTaxonomy", x) :: get_worms_classification_by_id_worker api aid s) := by
  obtain ⟨r, hres, hacc⟩ := (worker_sci_isSome_iff api aid s).mp hsci
  rw [worker_eq_success api aid s r hres hacc]
  obtain ⟨sname, hs⟩ := Option.isSome_iff_exists.mp (hWF.1 aid r hres hacc)
  constructor
  · refine ⟨sname, ?_⟩
    rw [dget_cons_ne _ _ (by decide)]
    simp [dget, alookup, hs]
  · intro rk hrk
    fin_cases hrk <;> simp [dget, alookup]

theorem dget_batchResultDict_sci (m : WormsRecord) :
    dget (batchResultDict m) "scientificName" = some m.scientificname := rfl

/-- The per-term batch dict is complete once the record carries a name. -/
theorem recordOK_batchResultDict (m : WormsRecord)
    (h : m.scientificname.isSome = true) : RecordOK (batchResultDict m) := by
  obtain ⟨sname, hs⟩ := Option.isSome_iff_exists.mp h
  constructor
  · exact ⟨sname, by rw [dget_batchResultDict_sci, hs]⟩
  · intro rk hrk
    fin_cases hrk <;> simp [batchResultDict, dget, alookup]

/-- Prepending the three Stage-2 provenance keys preserves completeness. -/
theorem recordOK_stage2_record (x y z : Option String) (d : Dict) (h : RecordOK d) :
    RecordOK (("cleanedTaxonomy", x) :: ("match_type_debug", y) ::
      ("nameAccordingTo", z) :: d) := by
  obtain ⟨⟨s, hs⟩, hr⟩ := h
  constructor
  · refine ⟨s, ?_⟩
    rw [dget_cons_ne _ _ (by decide), dget_cons_ne _ _ (by decide),
      dget_cons_ne _ _ (by decide)]
    exact hs
  · intro rk hrk
    have hne : rk ≠ "cleanedTaxonomy" ∧ rk ≠ "match_type_debug" ∧ rk ≠ "nameAccordingTo" := by
      fin_cases hrk <;> exact ⟨by decide, by decide, by decide⟩
    rw [dget_cons_ne _ _ hne.1, dget_cons_ne _ _ hne.2.1, dget_cons_ne _ _ hne.2.2]
    exact hr rk hrk

/-! ## Cache well-formedness -/

theorem cacheOK_nil : CacheOK [] := by
  intro k d h
  cases h

theorem cacheOK_insert {c : Cache} {k : MapKey} {d : Dict} (hc : CacheOK c)
    (hd : RecordOK d) : CacheOK (cacheInsert c k d) := by
  intro k2 d2 h2
  by_cases hk : k2 = k
  · subst hk
    rw [clookup_cacheInsert_self] at h2
    cases h2
    exact hd
  · rw [clookup_cacheInsert_ne _ _ hk] at h2
    exact hc _ _ h2

/-! ## Fast-Path Classifier lemmas -/

theorem recordOK_fastRecord (s v : String) : RecordOK (fastRecord s v) := by
  unfold fastRecord
  split <;> exact recordOK_incertaeSedisDict _ _ _

/-- The two handled branches of the fast path collapse to one canonical form. -/
theorem fastPathStep_eq (s : String) (acc : Cache × List (String × String))
    (t : String × String) :
    fastPathStep s acc t =
      if handledCase t.1 = true then
        (cacheInsert acc.1 (.pair t.1 t.2) (fastRecord s t.1), acc.2 ++ [t])
      else acc := by
  cases h1 : isTrulyEmptyCase t.1
  · by_cases h2 : lowerStr (cleanedVerbatim t.1) ∈ ["eukaryota"]
    · simp [fastPathStep, handledCase, fastRecord, h1, h2]
    · simp [fastPathStep, handledCase, fastRecord, h1, h2]
  · simp [fastPathStep, handledCase, fastRecord, h1]

/-- `cases_to_handle` is exactly the handled prefix filter of the tuples. -/
theorem fastPath_go_snd (s : String) (tuples : List (String × String))
    (c : Cache) (h : List (String × String)) :
    (tuples.foldl (fastPathStep s) (c, h)).2 =
      h ++ tuples.filter (fun t => handledCase t.1) := by
  induction tuples generalizing c h with
  | nil => simp
  | cons t ts ih =>
    rw [List.foldl_cons, fastPathStep_eq]
    by_cases hc : handledCase t.1 = true
    · rw [if_pos hc, ih]
      simp [List.filter_cons, hc]
    · rw [if_neg hc, ih]
      simp [List.filter_cons, hc]

theorem fastPath_cached_pres (s : String) (tuples : List (String × String))
    (c : Cache) (h : List (String × String)) (v a : String)
    (hc : clookup c (.pair v a) = some (fastRecord s v)) :
    clookup (tuples.foldl (fastPathStep s) (c, h)).1 (.pair v a) =
      some (fastRecord s v) := by
  induction tuples generalizing c h with
  | nil => exact hc
  | cons t ts ih =>
    rw [List.foldl_cons, fastPathStep_eq]
    by_cases hd : handledCase t.1 = true
    · rw [if_pos hd]
      apply ih
      by_cases hk : MapKey.pair v a = MapKey.pair t.1 t.2
      · obtain ⟨rfl, rfl⟩ : v = t.1 ∧ a = t.2 := by
          injection hk with h1 h2
          exact ⟨h1, h2⟩
        rw [clookup_cacheInsert_self]
      · rw [clookup_cacheInsert_ne _ _ hk]
        exact hc
    · rw [if_neg hd]
      exact ih _ _ hc

/-- A handled tuple ends up cached with its `fastRecord`. -/
theorem fastPath_cached (s : String) (tuples : List (String × String))
    (c : Cache) (h : List (String × String)) (v a : String)
    (ht : (v, a) ∈ tuples) (hd : handledCase v = true) :
    clookup (tuples.foldl (fastPathStep s) (c, h)).1 (.pair v a) =
      some (fastRecord s v) := by
  induction tuples generalizing c h with
  | nil => cases ht
  | cons t ts ih =>
    rw [List.foldl_cons, fastPathStep_eq]
    rcases List.mem_cons.mp ht with heq | hts
    · obtain rfl := heq.symm
      rw [if_pos hd]
      exact fastPath_cached_pres s ts _ _ v a (clookup_cacheInsert_self _ _ _)
    · by_cases hdt : handledCase t.1 = true
      · rw [if_pos hdt]
        exact ih _ _ hts
      · rw [if_neg hdt]
        exact ih _ _ hts

/-- The fast path touches no key other than the handled tuples' pair keys. -/
theorem fastPath_unchanged (s : String) (tuples : List (String × String))
    (c : Cache) (h : List (String × String)) (k : MapKey)
    (hk : ∀ t ∈ tuples, MapKey.pair t.1 t.2 = k → handledCase t.1 = false) :
    clookup (tuples.foldl (fastPathStep s) (c, h)).1 k = clookup c k := by
  induction tuples generalizing c h with
  | nil => rfl
  | cons t ts ih =>
    rw [List.foldl_cons, fastPathStep_eq]
    by_cases hdt : handledCase t.1 = true
    · rw [if_pos hdt]
      have hne : k ≠ MapKey.pair t.1 t.2 := by
        intro he
        have := hk t (List.mem_cons_self _ _) he.symm
        rw [this] at hdt
        cases hdt
      rw [ih _ _ (fun t2 ht2 he => hk t2 (List.mem_cons_of_mem _ ht2) he),
        clookup_cacheInsert_ne _ _ hne]
    · rw [if_neg hdt]
      exact ih _ _ (fun t2 ht2 he => hk t2 (List.mem_cons_of_mem _ ht2) he)

theorem fastPath_cacheOK (s : String) (tuples : List (String × String))
    (c : Cache) (h : List (String × String)) (hc : CacheOK c) :
    CacheOK (tuples.foldl (fastPathStep s) (c, h)).1 := by
  induction tuples generalizing c h with
  | nil => exact hc
  | cons t ts ih =>
    rw [List.foldl_cons, fastPathStep_eq]
    by_cases hdt : handledCase t.1 = true
    · rw [if_pos hdt]
      exact ih _ _ (cacheOK_insert hc (recordOK_fastRecord s t.1))
    · rw [if_neg hdt]
      exact ih _ _ hc

/-! ## Generic cache-insert fold lemmas -/

theorem foldl_insert_isSome {α : Type} (l : List α) (key : α → MapKey) (val : α → Dict)
    (c : Cache) (k : MapKey) (h : (clookup c k).isSome = true) :
    (clookup (l.foldl (fun c2 t => cacheInsert c2 (key t) (val t)) c) k).isSome = true := by
  induction l generalizing c with
  | nil => exact h
  | cons t ts ih => exact ih _ (clookup_cacheInsert_isSome _ _ _ _ h)

theorem foldl_insert_cached_pres {α : Type} (l : List α) (key : α → MapKey)
    (val : α → Dict) (c : Cache) (x : α)
    (hinj : ∀ y z, key y = key z → y = z)
    (hc : clookup c (key x) = some (val x)) :
    clookup (l.foldl (fun c2 t => cacheInsert c2 (key t) (val t)) c) (key x) = some (val x) := by
  induction l generalizing c with
  | nil => exact hc
  | cons t ts ih =>
    apply ih
    by_cases hk : key x = key t
    · obtain rfl := hinj x t hk
      rw [clookup_cacheInsert_self]
    · rw [clookup_cacheInsert_ne _ _ hk]
      exact hc

theorem foldl_insert_cached {α : Type} (l : List α) (key : α → MapKey)
    (val : α → Dict) (c : Cache) (x : α)
    (hinj : ∀ y z, key y = key z → y = z) (hx : x ∈ l) :
    clookup (l.foldl (fun c2 t => cacheInsert c2 (key t) (val t)) c) (key x) = some (val x) := by
  induction l generalizing c with
  | nil => cases hx
  | cons t ts ih =>
    rcases List.mem_cons.mp hx with rfl | hts
    · exact foldl_insert_cached_pres ts key val _ _ hinj (clookup_cacheInsert_self _ _ _)
    · exact ih _ hts

theorem foldl_insert_unchanged {α : Type} (l : List α) (key : α → MapKey)
    (val : α → Dict) (c : Cache) (k : MapKey) (hk : ∀ t ∈ l, key t ≠ k) :
    clookup (l.foldl (fun c2 t => cacheInsert c2 (key t) (val t)) c) k = clookup c k := by
  induction l generalizing c with
  | nil => rfl
  | cons t ts ih =>
    rw [List.foldl_cons, ih _ (fun t2 ht2 => hk t2 (List.mem_cons_of_mem _ ht2)),
      clookup_cacheInsert_ne _ _ (fun he => hk t (List.mem_cons_self _ _) he.symm)]

theorem foldl_insert_cacheOK {α : Type} (l : List α) (key : α → MapKey)
    (val : α → Dict) (c : Cache) (hok : ∀ t ∈ l, RecordOK (val t)) (hc : CacheOK c) :
    CacheOK (l.foldl (fun c2 t => cacheInsert c2 (key t) (val t)) c) := by
  induction l generalizing c with
  | nil => exact hc
  | cons t ts ih =>
    exact ih _ (fun t2 ht2 => hok t2 (List.mem_cons_of_mem _ ht2))
      (cacheOK_insert hc (hok t (List.mem_cons_self _ _)))

/-! ## Stage 1 lemmas -/

theorem inGroups_cons (g : Nat × List (String × String))
    (gs : List (Nat × List (String × String))) (aid : Nat) (t : String × String) :
    inGroups (g :: gs) aid t ↔ (g.1 = aid ∧ t ∈ g.2) ∨ inGroups gs aid t := by
  constructor
  · rintro ⟨g3, hg3, h⟩
    rcases List.mem_cons.mp hg3 with rfl | hm
    · exact Or.inl h
    · exact Or.inr ⟨g3, hm, h⟩
  · rintro (⟨h1, h2⟩ | ⟨g3, hm, h⟩)
    · exact ⟨g, List.mem_cons_self _ _, h1, h2⟩
    · exact ⟨g3, List.mem_cons_of_mem _ hm, h⟩

theorem inGroups_groupAppend (gs : List (Nat × List (String × String)))
    (aid2 : Nat) (t2 : String × String) (aid : Nat) (t : String × String) :
    inGroups (groupAppend gs aid2 t2) aid t ↔
      inGroups gs aid t ∨ (aid = aid2 ∧ t = t2) := by
  induction gs with
  | nil =>
    constructor
    · rintro ⟨g, hg, h1, h2⟩
      rcases List.mem_singleton.mp hg with rfl
      exact Or.inr ⟨h1.symm, List.mem_singleton.mp h2⟩
    · rintro (⟨g, hg, _⟩ | ⟨h1, h2⟩)
      · cases hg
      · exact ⟨(aid2, [t2]), List.mem_singleton_self _, h1.symm, by
          rw [h2]; exact List.mem_singleton_self _⟩
  | cons g gs ih =>
    by_cases hgid : g.1 = aid2
    · rw [show groupAppend (g :: gs) aid2 t2 = (g.1, g.2 ++ [t2]) :: gs from by
        simp [groupAppend, hgid]]
      rw [inGroups_cons, inGroups_cons]
      constructor
      · rintro (⟨h1, h2⟩ | h)
        · rcases List.mem_append.mp h2 with hin | hin
          · exact Or.inl (Or.inl ⟨h1, hin⟩)
          · exact Or.inr ⟨by rw [← h1, hgid], List.mem_singleton.mp hin⟩
        · exact Or.inl (Or.inr h)
      · rintro ((⟨h1, h2⟩ | h) | ⟨rfl, rfl⟩)
        · exact Or.inl ⟨h1, List.mem_append.mpr (Or.inl h2)⟩
        · exact Or.inr h
        · exact Or.inl ⟨hgid, List.mem_append.mpr (Or.inr (List.mem_singleton_self _))⟩
    · rw [show groupAppend (g :: gs) aid2 t2 = g :: groupAppend gs aid2 t2 from by
        simp [groupAppend, hgid]]
      rw [inGroups_cons, inGroups_cons, ih]
      tauto

theorem stage1Partition_eq (skip : List String) (pr2 : List (String × Nat))
    (tuples : List (String × String)) :
    stage1Partition skip pr2 tuples = tuples.foldl (s1step skip pr2) ([], []) := rfl

theorem s1Partition_go_groups (skip : List String) (pr2 : List (String × Nat))
    (tuples : List (String × String))
    (gs : List (Nat × List (String × String))) (u : List (String × String))
    (aid : Nat) (t : String × String) :
    inGroups (tuples.foldl (s1step skip pr2) (gs, u)).1 aid t ↔
      inGroups gs aid t ∨ (t ∈ tuples ∧ pr2Hit skip pr2 t = some aid) := by
  induction tuples generalizing gs u with
  | nil => simp
  | cons t2 ts ih =>
    rw [List.foldl_cons]
    cases h2 : pr2Hit skip pr2 t2 with
    | none =>
      rw [show s1step skip pr2 (gs, u) t2 = (gs, u ++ [t2]) from by simp [s1step, h2]]
      rw [ih]
      constructor
      · rintro (h | ⟨hm, hh⟩)
        · exact Or.inl h
        · exact Or.inr ⟨List.mem_cons_of_mem _ hm, hh⟩
      · rintro (h | ⟨hm, hh⟩)
        · exact Or.inl h
        · rcases List.mem_cons.mp hm with rfl | hm2
          · rw [h2] at hh
            cases hh
          · exact Or.inr ⟨hm2, hh⟩
    | some aid2 =>
      rw [show s1step skip pr2 (gs, u) t2 = (groupAppend gs aid2 t2, u) from by
        simp [s1step, h2]]
      rw [ih, inGroups_groupAppend]
      constructor
      · rintro ((h | ⟨rfl, rfl⟩) | ⟨hm, hh⟩)
        · exact Or.inl h
        · exact Or.inr ⟨List.mem_cons_self _ _, h2⟩
        · exact Or.inr ⟨List.mem_cons_of_mem _ hm, hh⟩
      · rintro (h | ⟨hm, hh⟩)
        · exact Or.inl (Or.inl h)
        · rcases List.mem_cons.mp hm with rfl | hm2
          · rw [h2] at hh
            injection hh with hh2
            exact Or.inl (Or.inr ⟨hh2.symm, rfl⟩)
          · exact Or.inr ⟨hm2, hh⟩

theorem s1Partition_go_snd (skip : List String) (pr2 : List (String × Nat))
    (tuples : List (String × String))
    (gs : List (Nat × List (String × String))) (u : List (String × String)) :
    (tuples.foldl (s1step skip pr2) (gs, u)).2 =
      u ++ tuples.filter (fun t => (pr2Hit skip pr2 t).isNone) := by
  induction tuples generalizing gs u with
  | nil => simp
  | cons t2 ts ih =>
    rw [List.foldl_cons]
    cases h2 : pr2Hit skip pr2 t2 with
    | none =>
      rw [show s1step skip pr2 (gs, u) t2 = (gs, u ++ [t2]) from by simp [s1step, h2]]
      rw [ih]
      simp [List.filter_cons, h2]
    | some aid2 =>
      rw [show s1step skip pr2 (gs, u) t2 = (groupAppend gs aid2 t2, u) from by
        simp [s1step, h2]]
      rw [ih]
      simp [List.filter_cons, h2]

/-- Stage-1 group resolution in canonical form. -/
theorem stage1Resolve_eq (api : WormsApi) (s : String)
    (acc : Cache × List (String × String)) (g : Nat × List (String × String)) :
    stage1Resolve api s acc g =
      if (dget (get_worms_classification_by_id_worker api g.1 s) "scientificName").isSome = true then
        (g.2.foldl (fun c2 t => cacheInsert c2 (.pair t.1 t.2)
          (stage1Record (get_worms_classification_by_id_worker api g.1 s) t)) acc.1,
         acc.2)
      else (acc.1, acc.2 ++ g.2) := rfl

theorem pairKey_inj (y z : String × String)
    (h : MapKey.pair y.1 y.2 = MapKey.pair z.1 z.2) : y = z := by
  injection h with h1 h2
  exact Prod.ext h1 h2

theorem s1Resolve_fold_unmatched (api : WormsApi) (s : String)
    (gs : List (Nat × List (String × String))) (c : Cache)
    (u : List (String × String)) (t : String × String) :
    t ∈ (gs.foldl (stage1Resolve api s) (c, u)).2 ↔
      t ∈ u ∨ ∃ g ∈ gs, t ∈ g.2 ∧
        ¬(dget (get_worms_classification_by_id_worker api g.1 s) "scientificName").isSome = true := by
  induction gs generalizing c u with
  | nil => simp
  | cons g gs ih =>
    rw [List.foldl_cons, stage1Resolve_eq]
    by_cases hs : (dget (get_worms_classification_by_id_worker api g.1 s) "scientificName").isSome = true
    · rw [if_pos hs, ih]
      constructor
      · rintro (h | ⟨g2, hg2, h1, h2⟩)
        · exact Or.inl h
        · exact Or.inr ⟨g2, List.mem_cons_of_mem _ hg2, h1, h2⟩
      · rintro (h | ⟨g2, hg2, h1, h2⟩)
        · exact Or.inl h
        · rcases List.mem_cons.mp hg2 with rfl | hm
          · exact absurd hs h2
          · exact Or.inr ⟨g2, hm, h1, h2⟩
    · rw [if_neg hs, ih]
      constructor
      · rintro (h | ⟨g2, hg2, h1, h2⟩)
        · rcases List.mem_append.mp h with h | h
          · exact Or.inl h
          · exact Or.inr ⟨g, List.mem_cons_self _ _, h, hs⟩
        · exact Or.inr ⟨g2, List.mem_cons_of_mem _ hg2, h1, h2⟩
      · rintro (h | ⟨g2, hg2, h1, h2⟩)
        · exact Or.inl (List.mem_append.mpr (Or.inl h))
        · rcases List.mem_cons.mp hg2 with rfl | hm
          · exact Or.inl (List.mem_append.mpr (Or.inr h1))
          · exact Or.inr ⟨g2, hm, h1, h2⟩

theorem s1Resolve_fold_isSome (api : WormsApi) (s : String)
    (gs : List (Nat × List (String × String))) (c : Cache)
    (u : List (String × String)) (k : MapKey)
    (h : (clookup c k).isSome = true) :
    (clookup (gs.foldl (stage1Resolve api s) (c, u)).1 k).isSome = true := by
  induction gs generalizing c u with
  | nil => exact h
  | cons g gs ih =>
    rw [List.foldl_cons, stage1Resolve_eq]
    by_cases hs : (dget (get_worms_classification_by_id_worker api g.1 s) "scientificName").isSome = true
    · rw [if_pos hs]
      exact ih _ _ (foldl_insert_isSome _ _ _ _ _ h)
    · rw [if_neg hs]
      exact ih _ _ h

theorem s1Resolve_fold_cached (api : WormsApi) (s : String)
    (gs : List (Nat × List (String × String))) (c : Cache)
    (u : List (String × String)) (t : String × String)
    (hg : ∃ g ∈ gs, t ∈ g.2 ∧
      (dget (get_worms_classification_by_id_worker api g.1 s) "scientificName").isSome = true) :
    (clookup (gs.foldl (stage1Resolve api s) (c, u)).1 (.pair t.1 t.2)).isSome = true := by
  induction gs generalizing c u with
  | nil =>
    obtain ⟨g, hg2, _⟩ := hg
    cases hg2
  | cons g gs ih =>
    rw [List.foldl_cons, stage1Resolve_eq]
    obtain ⟨g2, hg2, h1, h2⟩ := hg
    rcases List.mem_cons.mp hg2 with rfl | hm
    · rw [if_pos h2]
      apply s1Resolve_fold_isSome
      have := foldl_insert_cached g2.2 (fun t2 => MapKey.pair t2.1 t2.2)
        (fun t2 => stage1Record (get_worms_classification_by_id_worker api g2.1 s) t2)
        c t pairKey_inj h1
      rw [this]
      rfl
    · by_cases hs : (dget (get_worms_classification_by_id_worker api g.1 s) "scientificName").isSome = true
      · rw [if_pos hs]
        exact ih _ _ ⟨g2, hm, h1, h2⟩
      · rw [if_neg hs]
        exact ih _ _ ⟨g2, hm, h1, h2⟩

theorem s1Resolve_fold_unchanged (api : WormsApi) (s : String)
    (gs : List (Nat × List (String × String))) (c : Cache)
    (u : List (String × String)) (k : MapKey)
    (hk : ∀ g ∈ gs,
      (dget (get_worms_classification_by_id_worker api g.1 s) "scientificName").isSome = true →
      ∀ t ∈ g.2, MapKey.pair t.1 t.2 ≠ k) :
    clookup (gs.foldl (stage1Resolve api s) (c, u)).1 k = clookup c k := by
  induction gs generalizing c u with
  | nil => rfl
  | cons g gs ih =>
    rw [List.foldl_cons, stage1Resolve_eq]
    by_cases hs : (dget (get_worms_classification_by_id_worker api g.1 s) "scientificName").isSome = true
    · rw [if_pos hs,
        ih _ _ (fun g2 hg2 hsuc t ht => hk g2 (List.mem_cons_of_mem _ hg2) hsuc t ht),
        foldl_insert_unchanged _ _ _ _ _ (fun t ht => hk g (List.mem_cons_self _ _) hs t ht)]
    · rw [if_neg hs]
      exact ih _ _ (fun g2 hg2 hsuc t ht => hk g2 (List.mem_cons_of_mem _ hg2) hsuc t ht)

theorem s1Resolve_fold_cacheOK (api : WormsApi) (s : String)
    (gs : List (Nat × List (String × String))) (c : Cache)
    (u : List (String × String)) (hWF : WFApi api) (hc : CacheOK c) :
    CacheOK (gs.foldl (stage1Resolve api s) (c, u)).1 := by
  induction gs generalizing c u with
  | nil => exact hc
  | cons g gs ih =>
    rw [List.foldl_cons, stage1Resolve_eq]
    by_cases hs : (dget (get_worms_classification_by_id_worker api g.1 s) "scientificName").isSome = true
    · rw [if_pos hs]
      refine ih _ _ (foldl_insert_cacheOK _ _ _ _ (fun t ht => ?_) hc)
      exact recordOK_stage1_insert api g.1 s _ hWF hs
    · rw [if_neg hs]
      exact ih _ _ hc

theorem pr2Hit_nil (skip : List String) (t : String × String) :
    pr2Hit skip [] t = none := by
  unfold pr2Hit
  split
  · rfl
  · cases (parse_semicolon_taxonomy (some t.1)).getLast? <;> rfl

theorem pr2Hit_of_skip (skip : List String) (pr2 : List (String × Nat))
    (t : String × String) (h : t.2 ∈ skip) : pr2Hit skip pr2 t = none := by
  simp [pr2Hit, h]

theorem stage1_eq (api : WormsApi) (s : String) (skip : List String)
    (pr2 : List (String × Nat)) (c : Cache) (tuples : List (String × String)) :
    stage1 api s skip pr2 c tuples =
      if pr2 = [] then (c, tuples)
      else (stage1Partition skip pr2 tuples).1.foldl (stage1Resolve api s)
        (c, (stage1Partition skip pr2 tuples).2) := by
  by_cases h : pr2 = [] <;> simp [stage1, h]

/-- Any tuple appearing in a partition group got there by a PR2 hit. -/
theorem mem_partition_group (skip : List String) (pr2 : List (String × Nat))
    (tuples : List (String × String)) (g : Nat × List (String × String))
    (t : String × String) (hg : g ∈ (stage1Partition skip pr2 tuples).1)
    (ht : t ∈ g.2) : t ∈ tuples ∧ pr2Hit skip pr2 t = some g.1 := by
  have h := (s1Partition_go_groups skip pr2 tuples [] [] g.1 t).mp ⟨g, hg, rfl, ht⟩
  rcases h with ⟨g2, hg2, _⟩ | h
  · cases hg2
  · exact h

/-- Tuples deferred by the partition are exactly those with no PR2 hit. -/
theorem mem_partition_unmatched (skip : List String) (pr2 : List (String × Nat))
    (tuples : List (String × String)) (t : String × String) :
    t ∈ (stage1Partition skip pr2 tuples).2 ↔
      t ∈ tuples ∧ (pr2Hit skip pr2 t).isNone = true := by
  rw [stage1Partition_eq, s1Partition_go_snd]
  simp [List.mem_filter]

/-- A tuple whose assay skips species-level matching is deferred untouched to
Stage 2, whatever the PR2 dictionary holds. -/
theorem stage1_skip_deferred (api : WormsApi) (s : String) (skip : List String)
    (pr2 : List (String × Nat)) (c : Cache) (tuples : List (String × String))
    (t : String × String) (ht : t ∈ tuples) (hskip : t.2 ∈ skip) :
    t ∈ (stage1 api s skip pr2 c tuples).2 ∧
    clookup (stage1 api s skip pr2 c tuples).1 (.pair t.1 t.2) =
      clookup c (.pair t.1 t.2) := by
  rw [stage1_eq]
  by_cases hpr2 : pr2 = []
  · rw [if_pos hpr2]
    exact ⟨ht, rfl⟩
  · rw [if_neg hpr2]
    have hhit := pr2Hit_of_skip skip pr2 t hskip
    constructor
    · rw [s1Resolve_fold_unmatched]
      exact Or.inl ((mem_partition_unmatched skip pr2 tuples t).mpr
        ⟨ht, by simp [hhit]⟩)
    · apply s1Resolve_fold_unchanged
      intro g hg _ t2 ht2 he
      obtain rfl := pairKey_inj t2 t he
      have := (mem_partition_group skip pr2 tuples g t2 hg ht2).2
      rw [hhit] at this
      cases this

/-- A tuple whose PR2 hit fails to resolve (exception, falsy record, or
non-accepted status) falls through to Stage 2 with the cache untouched. -/
theorem stage1_fallthrough (api : WormsApi) (s : String) (skip : List String)
    (pr2 : List (String × Nat)) (c : Cache) (tuples : List (String × String))
    (t : String × String) (aid : Nat) (ht : t ∈ tuples)
    (hhit : pr2Hit skip pr2 t = some aid)
    (hfail : ¬(dget (get_worms_classification_by_id_worker api aid s) "scientificName").isSome = true) :
    t ∈ (stage1 api s skip pr2 c tuples).2 ∧
    clookup (stage1 api s skip pr2 c tuples).1 (.pair t.1 t.2) =
      clookup c (.pair t.1 t.2) := by
  rw [stage1_eq]
  have hpr2 : ¬pr2 = [] := by
    intro h
    subst h
    rw [pr2Hit_nil] at hhit
    cases hhit
  rw [if_neg hpr2]
  have hin : inGroups (stage1Partition skip pr2 tuples).1 aid t := by
    rw [stage1Partition_eq, s1Partition_go_groups]
    exact Or.inr ⟨ht, hhit⟩
  obtain ⟨g, hg, hgid, hgt⟩ := hin
  constructor
  · rw [s1Resolve_fold_unmatched]
    exact Or.inr ⟨g, hg, hgt, by rw [hgid]; exact hfail⟩
  · apply s1Resolve_fold_unchanged
    intro g2 hg2 hsuc t2 ht2 he
    obtain rfl := pairKey_inj t2 t he
    have hh := (mem_partition_group skip pr2 tuples g2 t2 hg2 ht2).2
    rw [hhit] at hh
    injection hh with hh
    rw [← hh] at hsuc
    exact hfail hsuc

/-- Every tuple entering Stage 1 leaves it cached or still unmatched. -/
theorem stage1_totality (api : WormsApi) (s : String) (skip : List String)
    (pr2 : List (String × Nat)) (c : Cache) (tuples : List (String × String))
    (t : String × String) (ht : t ∈ tuples) :
    (clookup (stage1 api s skip pr2 c tuples).1 (.pair t.1 t.2)).isSome = true ∨
    t ∈ (stage1 api s skip pr2 c tuples).2 := by
  rw [stage1_eq]
  by_cases hpr2 : pr2 = []
  · rw [if_pos hpr2]
    exact Or.inr ht
  · rw [if_neg hpr2]
    cases hhit : pr2Hit skip pr2 t with
    | none =>
      refine Or.inr ?_
      rw [s1Resolve_fold_unmatched]
      exact Or.inl ((mem_partition_unmatched skip pr2 tuples t).mpr
        ⟨ht, by simp [hhit]⟩)
    | some aid =>
      have hin : inGroups (stage1Partition skip pr2 tuples).1 aid t := by
        rw [stage1Partition_eq, s1Partition_go_groups]
        exact Or.inr ⟨ht, hhit⟩
      obtain ⟨g, hg, hgid, hgt⟩ := hin
      by_cases hs : (dget (get_worms_classification_by_id_worker api aid s) "scientificName").isSome = true
      · exact Or.inl (s1Resolve_fold_cached api s _ _ _ t
          ⟨g, hg, hgt, by rw [hgid]; exact hs⟩)
      · refine Or.inr ?_
        rw [s1Resolve_fold_unmatched]
        exact Or.inr ⟨g, hg, hgt, by rw [hgid]; exact hs⟩

theorem stage1_isSome_mono (api : WormsApi) (s : String) (skip : List String)
    (pr2 : List (String × Nat)) (c : Cache) (tuples : List (String × String))
    (k : MapKey) (h : (clookup c k).isSome = true) :
    (clookup (stage1 api s skip pr2 c tuples).1 k).isSome = true := by
  rw [stage1_eq]
  by_cases hpr2 : pr2 = []
  · rwa [if_pos hpr2]
  · rw [if_neg hpr2]
    exact s1Resolve_fold_isSome api s _ _ _ k h

theorem stage1_cacheOK (api : WormsApi) (s : String) (skip : List String)
    (pr2 : List (String × Nat)) (c : Cache) (tuples : List (String × String))
    (hWF : WFApi api) (hc : CacheOK c) :
    CacheOK (stage1 api s skip pr2 c tuples).1 := by
  rw [stage1_eq]
  by_cases hpr2 : pr2 = []
  · rwa [if_pos hpr2]
  · rw [if_neg hpr2]
    exact s1Resolve_fold_cacheOK api s _ _ _ hWF hc

/-! ## Stage 2 lemmas: the batch lookup table -/

theorem firstAcceptedMatch_spec (l : List (Option WormsRecord)) (m : WormsRecord)
    (h : firstAcceptedMatch l = some m) :
    some m ∈ l ∧ m.status = some "accepted" := by
  induction l with
  | nil => cases h
  | cons o rest ih =>
    cases o with
    | none =>
      obtain ⟨h1, h2⟩ := ih h
      exact ⟨List.mem_cons_of_mem _ h1, h2⟩
    | some m2 =>
      by_cases hacc : m2.status = some "accepted"
      · rw [show firstAcceptedMatch (some m2 :: rest) = some m2 from by
          simp [firstAcceptedMatch, hacc]] at h
        injection h with h
        subst h
        exact ⟨List.mem_cons_self _ _, hacc⟩
      · rw [show firstAcceptedMatch (some m2 :: rest) = firstAcceptedMatch rest from by
          simp [firstAcceptedMatch, hacc]] at h
        obtain ⟨h1, h2⟩ := ih h
        exact ⟨List.mem_cons_of_mem _ h1, h2⟩

/-- Every dict produced by the batch worker comes from an accepted candidate
of the service response. -/
theorem batch_worker_entry (api : WormsApi) (chunk : List String)
    (x : String) (d : Dict) (h : (x, d) ∈ get_worms_batch_worker api chunk) :
    ∃ raw l m, api.aphiaRecordsByMatchNames chunk = .ok raw ∧ l ∈ raw ∧
      some m ∈ l ∧ m.status = some "accepted" ∧ d = batchResultDict m := by
  unfold get_worms_batch_worker at h
  cases hres : api.aphiaRecordsByMatchNames chunk with
  | error e =>
    rw [hres] at h
    cases h
  | ok raw =>
    rw [hres] at h
    obtain ⟨p, hp, hpd⟩ := List.mem_filterMap.mp h
    obtain ⟨m, hm, hmd⟩ := Option.map_eq_some'.mp hpd
    obtain ⟨h1, h2⟩ := firstAcceptedMatch_spec p.2 m hm
    have hraw : p.2 ∈ raw := (List.of_mem_zip hp).2
    refine ⟨raw, p.2, m, rfl, hraw, h1, h2, ?_⟩
    injection hmd with hx hd
    exact hd.symm

theorem blkOK_updateLookup (blk : BatchLookup) (entries : List (String × Dict))
    (hb : BlkOK blk) (he : ∀ e ∈ entries, RecordOK e.2) :
    BlkOK (updateLookup blk entries) := by
  induction entries generalizing blk with
  | nil => exact hb
  | cons e es ih =>
    rw [updateLookup, List.foldl_cons]
    refine ih _ ?_ (fun e2 he2 => he e2 (List.mem_cons_of_mem _ he2))
    intro term d hd
    by_cases ht : term = e.1
    · rw [show (fun t => if t = e.1 then some e.2 else blk t) term = some e.2 from by
        simp [ht]] at hd
      injection hd with hd
      subst hd
      exact he e (List.mem_cons_self _ _)
    · rw [show (fun t => if t = e.1 then some e.2 else blk t) term = blk term from by
        simp [ht]] at hd
      exact hb term d hd

theorem blkOK_buildBatchLookup (api : WormsApi) (chunks : List (List String))
    (hWF : WFApi api) : BlkOK (buildBatchLookup api chunks) := by
  unfold buildBatchLookup
  have base : BlkOK (fun _ => none : BatchLookup) := fun term d hd => by cases hd
  generalize (fun _ => none : BatchLookup) = blk0 at base ⊢
  induction chunks generalizing blk0 with
  | nil => exact base
  | cons chunk chunks ih =>
    rw [List.foldl_cons]
    refine ih _ (blkOK_updateLookup _ _ base ?_)
    intro e he
    obtain ⟨raw, l, m, hres, hl, hm, hacc, hd⟩ :=
      batch_worker_entry api chunk e.1 e.2 (by
        have : e = (e.1, e.2) := rfl
        rw [← this]
        exact he)
    rw [hd]
    exact recordOK_batchResultDict m (hWF.2 chunk raw l m hres hl hm hacc)

/-- The sequential fallback builds the same lookup table as the parallel
path: its per-batch body is the worker's. -/
theorem buildBatchLookupSeq_eq (api : WormsApi) (chunks : List (List String)) :
    buildBatchLookupSeq api chunks = buildBatchLookup api chunks := by
  unfold buildBatchLookupSeq buildBatchLookup
  generalize (fun _ => none : BatchLookup) = blk0
  induction chunks generalizing blk0 with
  | nil => rfl
  | cons chunk rest ih =>
    rw [List.foldl_cons, List.foldl_cons]
    cases hres : api.aphiaRecordsByMatchNames chunk with
    | error e =>
      cases e
      simp only [hres]
      rw [show get_worms_batch_worker api chunk = [] from by
        simp [get_worms_batch_worker, hres]]
      exact ih _
    | ok raw =>
      simp only [hres]
      rw [show get_worms_batch_worker api chunk = (List.zip chunk raw).filterMap
          (fun p => (firstAcceptedMatch p.2).map (fun m => (p.1, batchResultDict m))) from by
        simp [get_worms_batch_worker, hres]]
      exact ih _

/-- Dropping a failing batch from the batch list does not change the lookup
table: every other batch's entries survive. -/
theorem buildBatchLookup_append_error (api : WormsApi)
    (chunks1 chunks2 : List (List String)) (bad : List String)
    (h : api.aphiaRecordsByMatchNames bad = .error ()) :
    buildBatchLookup api (chunks1 ++ bad :: chunks2) =
      buildBatchLookup api (chunks1 ++ chunks2) := by
  unfold buildBatchLookup
  rw [List.foldl_append, List.foldl_append, List.foldl_cons,
    show get_worms_batch_worker api bad = [] from by simp [get_worms_batch_worker, h]]
  rfl

/-! ## Stage 2 lemmas: the matching loop -/

theorem stage2AssignStep_eq (s : String) (skip : List String)
    (info : List (String × Nat)) (blk : BatchLookup)
    (acc : Cache × List (String × String)) (t : String × String) :
    stage2AssignStep s skip info blk acc t =
      match stage2Val s skip info blk t with
      | some d => (cacheInsert acc.1 (.pair t.1 t.2) d, acc.2)
      | none => (acc.1, acc.2 ++ [t]) := by
  cases h1 : stage2Terms skip info t.1 t.2 with
  | none => simp [stage2AssignStep, stage2Val, h1]
  | some parsed_names =>
    cases h2 : firstBatchHit blk parsed_names.reverse with
    | none => simp [stage2AssignStep, stage2Val, h1, h2]
    | some hit => simp [stage2AssignStep, stage2Val, stage2Record, h1, h2]

theorem s2Assign_go_snd (s : String) (skip : List String)
    (info : List (String × Nat)) (blk : BatchLookup)
    (u : List (String × String)) (c : Cache) (w : List (String × String)) :
    (u.foldl (stage2AssignStep s skip info blk) (c, w)).2 =
      w ++ u.filter (fun t => (stage2Val s skip info blk t).isNone) := by
  induction u generalizing c w with
  | nil => simp
  | cons t ts ih =>
    rw [List.foldl_cons, stage2AssignStep_eq]
    cases hv : stage2Val s skip info blk t with
    | none =>
      rw [ih]
      simp [List.filter_cons, hv]
    | some d =>
      rw [ih]
      simp [List.filter_cons, hv]

theorem s2Assign_go_cached_pres (s : String) (skip : List String)
    (info : List (String × Nat)) (blk : BatchLookup)
    (u : List (String × String)) (c : Cache) (w : List (String × String))
    (x : String × String) (d : Dict)
    (hv : stage2Val s skip info blk x = some d)
    (hc : clookup c (.pair x.1 x.2) = some d) :
    clookup (u.foldl (stage2AssignStep s skip info blk) (c, w)).1 (.pair x.1 x.2) =
      some d := by
  induction u generalizing c w with
  | nil => exact hc
  | cons t ts ih =>
    rw [List.foldl_cons, stage2AssignStep_eq]
    cases hv2 : stage2Val s skip info blk t with
    | none => exact ih _ _ hc
    | some d2 =>
      apply ih
      by_cases hk : MapKey.pair x.1 x.2 = MapKey.pair t.1 t.2
      · obtain rfl := pairKey_inj x t hk
        rw [hv] at hv2
        injection hv2 with hv2
        rw [← hv2, clookup_cacheInsert_self]
      · rw [clookup_cacheInsert_ne _ _ hk]
        exact hc

theorem s2Assign_go_cached (s : String) (skip : List String)
    (info : List (String × Nat)) (blk : BatchLookup)
    (u : List (String × String)) (c : Cache) (w : List (String × String))
    (x : String × String) (d : Dict) (hx : x ∈ u)
    (hv : stage2Val s skip info blk x = some d) :
    clookup (u.foldl (stage2AssignStep s skip info blk) (c, w)).1 (.pair x.1 x.2) =
      some d := by
  induction u generalizing c w with
  | nil => cases hx
  | cons t ts ih =>
    rw [List.foldl_cons, stage2AssignStep_eq]
    rcases List.mem_cons.mp hx with rfl | hts
    · rw [hv]
      exact s2Assign_go_cached_pres s skip info blk ts _ _ x d hv
        (clookup_cacheInsert_self _ _ _)
    · cases hv2 : stage2Val s skip info blk t with
      | none => exact ih _ _ hts
      | some d2 => exact ih _ _ hts

theorem s2Assign_go_unchanged (s : String) (skip : List String)
    (info : List (String × Nat)) (blk : BatchLookup)
    (u : List (String × String)) (c : Cache) (w : List (String × String))
    (k : MapKey)
    (hk : ∀ t ∈ u, MapKey.pair t.1 t.2 = k → stage2Val s skip info blk t = none) :
    clookup (u.foldl (stage2AssignStep s skip info blk) (c, w)).1 k = clookup c k := by
  induction u generalizing c w with
  | nil => rfl
  | cons t ts ih =>
    rw [List.foldl_cons, stage2AssignStep_eq]
    cases hv : stage2Val s skip info blk t with
    | none => exact ih _ _ (fun t2 ht2 he => hk t2 (List.mem_cons_of_mem _ ht2) he)
    | some d =>
      have hne : k ≠ MapKey.pair t.1 t.2 := by
        intro he
        have := hk t (List.mem_cons_self _ _) he.symm
        rw [this] at hv
        cases hv
      rw [ih _ _ (fun t2 ht2 he => hk t2 (List.mem_cons_of_mem _ ht2) he),
        clookup_cacheInsert_ne _ _ hne]

theorem s2Assign_go_isSome (s : String) (skip : List String)
    (info : List (String × Nat)) (blk : BatchLookup)
    (u : List (String × String)) (c : Cache) (w : List (String × String))
    (k : MapKey) (h : (clookup c k).isSome = true) :
    (clookup (u.foldl (stage2AssignStep s skip info blk) (c, w)).1 k).isSome = true := by
  induction u generalizing c w with
  | nil => exact h
  | cons t ts ih =>
    rw [List.foldl_cons, stage2AssignStep_eq]
    cases hv : stage2Val s skip info blk t with
    | none => exact ih _ _ h
    | some d => exact ih _ _ (clookup_cacheInsert_isSome _ _ _ _ h)

theorem firstBatchHit_found (blk : BatchLookup) (l : List String)
    (hit : String × Dict) (h : firstBatchHit blk l = some hit) :
    hit.1 ∈ l ∧ blk hit.1 = some hit.2 := by
  induction l with
  | nil => cases h
  | cons term rest ih =>
    cases hb : blk term with
    | some d =>
      rw [show firstBatchHit blk (term :: rest) = some (term, d) from by
        simp [firstBatchHit, hb]] at h
      injection h with h
      subst h
      exact ⟨List.mem_cons_self _ _, hb⟩
    | none =>
      rw [show firstBatchHit blk (term :: rest) = firstBatchHit blk rest from by
        simp [firstBatchHit, hb]] at h
      obtain ⟨h1, h2⟩ := ih h
      exact ⟨List.mem_cons_of_mem _ h1, h2⟩

theorem recordOK_stage2Val (s : String) (skip : List String)
    (info : List (String × Nat)) (blk : BatchLookup) (t : String × String)
    (d : Dict) (hb : BlkOK blk) (hv : stage2Val s skip info blk t = some d) :
    RecordOK d := by
  cases h1 : stage2Terms skip info t.1 t.2 with
  | none => simp [stage2Val, h1] at hv
  | some parsed_names =>
    cases h2 : firstBatchHit blk parsed_names.reverse with
    | none => simp [stage2Val, h1, h2] at hv
    | some hit =>
      simp [stage2Val, h1, h2] at hv
      rw [← hv]
      exact recordOK_stage2_record _ _ _ _
        (hb hit.1 hit.2 (firstBatchHit_found blk _ hit h2).2)

theorem s2Assign_go_cacheOK (s : String) (skip : List String)
    (info : List (String × Nat)) (blk : BatchLookup)
    (u : List (String × String)) (c : Cache) (w : List (String × String))
    (hb : BlkOK blk) (hc : CacheOK c) :
    CacheOK (u.foldl (stage2AssignStep s skip info blk) (c, w)).1 := by
  induction u generalizing c w with
  | nil => exact hc
  | cons t ts ih =>
    rw [List.foldl_cons, stage2AssignStep_eq]
    cases hv : stage2Val s skip info blk t with
    | none => exact ih _ _ hc
    | some d =>
      exact ih _ _ (cacheOK_insert hc (recordOK_stage2Val s skip info blk t d hb hv))

/-! ## Stage 2 top-level lemmas -/

theorem stage2_eq (api : WormsApi) (s : String) (skip : List String)
    (info : List (String × Nat)) (c : Cache) (u : List (String × String)) :
    stage2 api s skip info c u =
      if u = [] then (c, u)
      else if stage2AllTerms u = [] then (c, u)
      else stage2Assign s skip info (stage2BlkOf api u) c u := rfl

theorem blkOK_stage2BlkOf (api : WormsApi) (u : List (String × String))
    (hWF : WFApi api) : BlkOK (stage2BlkOf api u) := by
  unfold stage2BlkOf
  split
  · rw [buildBatchLookupSeq_eq]
    exact blkOK_buildBatchLookup api _ hWF
  · exact blkOK_buildBatchLookup api _ hWF

theorem stage2_totality (api : WormsApi) (s : String) (skip : List String)
    (info : List (String × Nat)) (c : Cache) (u : List (String × String))
    (t : String × String) (ht : t ∈ u) :
    (clookup (stage2 api s skip info c u).1 (.pair t.1 t.2)).isSome = true ∨
    t ∈ (stage2 api s skip info c u).2 := by
  rw [stage2_eq]
  by_cases h1 : u = []
  · subst h1
    cases ht
  · rw [if_neg h1]
    by_cases h2 : stage2AllTerms u = []
    · rw [if_pos h2]
      exact Or.inr ht
    · rw [if_neg h2]
      cases hv : stage2Val s skip info (stage2BlkOf api u) t with
      | none =>
        refine Or.inr ?_
        rw [stage2Assign, s2Assign_go_snd]
        simp [List.mem_filter, ht, hv]
      | some d =>
        refine Or.inl ?_
        rw [stage2Assign, s2Assign_go_cached s skip info _ u c [] t d ht hv]
        rfl

theorem stage2_isSome_mono (api : WormsApi) (s : String) (skip : List String)
    (info : List (String × Nat)) (c : Cache) (u : List (String × String))
    (k : MapKey) (h : (clookup c k).isSome = true) :
    (clookup (stage2 api s skip info c u).1 k).isSome = true := by
  rw [stage2_eq]
  by_cases h1 : u = []
  · rwa [if_pos h1]
  · rw [if_neg h1]
    by_cases h2 : stage2AllTerms u = []
    · rwa [if_pos h2]
    · rw [if_neg h2]
      exact s2Assign_go_isSome s skip info _ u c [] k h

theorem stage2_cacheOK (api : WormsApi) (s : String) (skip : List String)
    (info : List (String × Nat)) (c : Cache) (u : List (String × String))
    (hWF : WFApi api) (hc : CacheOK c) : CacheOK (stage2 api s skip info c u).1 := by
  rw [stage2_eq]
  by_cases h1 : u = []
  · rwa [if_pos h1]
  · rw [if_neg h1]
    by_cases h2 : stage2AllTerms u = []
    · rwa [if_pos h2]
    · rw [if_neg h2]
      exact s2Assign_go_cacheOK s skip info _ u c []
        (blkOK_stage2BlkOf api u hWF) hc

theorem stage2Val_none_of_terms_none (s : String) (skip : List String)
    (info : List (String × Nat)) (blk : BatchLookup) (t : String × String)
    (h : stage2Terms skip info t.1 t.2 = none) :
    stage2Val s skip info blk t = none := by
  simp [stage2Val, h]

/-- A tuple whose Stage-2 term sequence comes up empty is passed through to
the final fallback with the cache untouched. -/
theorem stage2_unmatched_of_terms_none (api : WormsApi) (s : String)
    (skip : List String) (info : List (String × Nat)) (c : Cache)
    (u : List (String × String)) (t : String × String) (ht : t ∈ u)
    (hterms : stage2Terms skip info t.1 t.2 = none) :
    t ∈ (stage2 api s skip info c u).2 ∧
    clookup (stage2 api s skip info c u).1 (.pair t.1 t.2) =
      clookup c (.pair t.1 t.2) := by
  rw [stage2_eq]
  by_cases h1 : u = []
  · subst h1
    cases ht
  · rw [if_neg h1]
    by_cases h2 : stage2AllTerms u = []
    · rw [if_pos h2]
      exact ⟨ht, rfl⟩
    · rw [if_neg h2]
      constructor
      · rw [stage2Assign, s2Assign_go_snd]
        simp [List.mem_filter, ht, stage2Val_none_of_terms_none s skip info _ t hterms]
      · rw [stage2Assign]
        apply s2Assign_go_unchanged
        intro t2 ht2 he
        obtain rfl := pairKey_inj t2 t he
        exact stage2Val_none_of_terms_none s skip info _ t2 hterms

/-! ## Final assembly lemmas -/

theorem finalUnmatched_cached (s : String) (skip : List String)
    (info : List (String × Nat)) (c : Cache) (u : List (String × String))
    (t : String × String) (ht : t ∈ u) :
    clookup (finalUnmatched s skip info c u) (.pair t.1 t.2) =
      some (incertaeSedisDict s "Failed_All_Stages_NoMatch"
        (finalCleanedTaxonomy skip info t.1 t.2)) := by
  exact foldl_insert_cached u (fun t2 => MapKey.pair t2.1 t2.2)
    (fun t2 => incertaeSedisDict s "Failed_All_Stages_NoMatch"
      (finalCleanedTaxonomy skip info t2.1 t2.2)) c t pairKey_inj ht

theorem finalUnmatched_unchanged (s : String) (skip : List String)
    (info : List (String × Nat)) (c : Cache) (u : List (String × String))
    (k : MapKey) (hk : ∀ t ∈ u, MapKey.pair t.1 t.2 ≠ k) :
    clookup (finalUnmatched s skip info c u) k = clookup c k := by
  exact foldl_insert_unchanged u (fun t2 => MapKey.pair t2.1 t2.2)
    (fun t2 => incertaeSedisDict s "Failed_All_Stages_NoMatch"
      (finalCleanedTaxonomy skip info t2.1 t2.2)) c k hk

theorem finalUnmatched_isSome (s : String) (skip : List String)
    (info : List (String × Nat)) (c : Cache) (u : List (String × String))
    (k : MapKey) (h : (clookup c k).isSome = true) :
    (clookup (finalUnmatched s skip info c u) k).isSome = true := by
  exact foldl_insert_isSome u (fun t2 => MapKey.pair t2.1 t2.2)
    (fun t2 => incertaeSedisDict s "Failed_All_Stages_NoMatch"
      (finalCleanedTaxonomy skip info t2.1 t2.2)) c k h

theorem finalUnmatched_cacheOK (s : String) (skip : List String)
    (info : List (String × Nat)) (c : Cache) (u : List (String × String))
    (hc : CacheOK c) : CacheOK (finalUnmatched s skip info c u) := by
  exact foldl_insert_cacheOK u (fun t2 => MapKey.pair t2.1 t2.2)
    (fun t2 => incertaeSedisDict s "Failed_All_Stages_NoMatch"
      (finalCleanedTaxonomy skip info t2.1 t2.2)) c
    (fun t2 _ => recordOK_incertaeSedisDict _ _ _) hc

/-! ## Whole-pipeline lemmas -/

theorem mem_uniqueTuples (rows : List Row) (r : Row) (v : String)
    (hr : r ∈ rows) (hv : r.verbatimIdentification = some v)
    (hm : ¬(pstrip v = "" || lowerStr (pstrip v) = "unassigned") = true) :
    (v, r.assay_name) ∈ uniqueTuples rows := by
  rw [uniqueTuples, mem_dedupList, List.mem_filterMap]
  refine ⟨r, hr, ?_⟩
  rw [hv]
  simp only [if_neg hm]

theorem mapKeyOf_eq_pair (r : Row) (v a : String) (h : mapKeyOf r = .pair v a) :
    r.verbatimIdentification = some v ∧ r.assay_name = a ∧
    ¬(pstrip v = "" || lowerStr (pstrip v) = "unassigned") = true := by
  cases hvb : r.verbatimIdentification with
  | none =>
    simp only [mapKeyOf, hvb] at h
    exact MapKey.noConfusion h
  | some s2 =>
    simp only [mapKeyOf, hvb] at h
    by_cases hc : (pstrip s2 = "" || lowerStr (pstrip s2) = "unassigned") = true
    · rw [if_pos hc] at h
      cases h
    · rw [if_neg hc] at h
      injection h with h1 h2
      subst h1
      subst h2
      exact ⟨rfl, rfl, hc⟩

/-- A tuple with no PR2 hit is deferred to Stage 2 with the cache untouched. -/
theorem stage1_deferred (api : WormsApi) (s : String) (skip : List String)
    (pr2 : List (String × Nat)) (c : Cache) (tuples : List (String × String))
    (t : String × String) (ht : t ∈ tuples) (hhit : pr2Hit skip pr2 t = none) :
    t ∈ (stage1 api s skip pr2 c tuples).2 ∧
    clookup (stage1 api s skip pr2 c tuples).1 (.pair t.1 t.2) =
      clookup c (.pair t.1 t.2) := by
  rw [stage1_eq]
  by_cases hpr2 : pr2 = []
  · rw [if_pos hpr2]
    exact ⟨ht, rfl⟩
  · rw [if_neg hpr2]
    constructor
    · rw [s1Resolve_fold_unmatched]
      exact Or.inl ((mem_partition_unmatched skip pr2 tuples t).mpr
        ⟨ht, by simp [hhit]⟩)
    · apply s1Resolve_fold_unchanged
      intro g hg _ t2 ht2 he
      obtain rfl := pairKey_inj t2 t he
      have := (mem_partition_group skip pr2 tuples g t2 hg ht2).2
      rw [hhit] at this
      cases this

theorem stage1_sub (api : WormsApi) (s : String) (skip : List String)
    (pr2 : List (String × Nat)) (c : Cache) (tuples : List (String × String))
    (t : String × String) (ht : t ∈ (stage1 api s skip pr2 c tuples).2) :
    t ∈ tuples := by
  rw [stage1_eq] at ht
  by_cases hpr2 : pr2 = []
  · rwa [if_pos hpr2] at ht
  · rw [if_neg hpr2, s1Resolve_fold_unmatched] at ht
    rcases ht with h | ⟨g, hg, hgt, _⟩
    · exact ((mem_partition_unmatched skip pr2 tuples t).mp h).1
    · exact (mem_partition_group skip pr2 tuples g t hg hgt).1

theorem stage1_unchanged (api : WormsApi) (s : String) (skip : List String)
    (pr2 : List (String × Nat)) (c : Cache) (tuples : List (String × String))
    (k : MapKey) (hk : ∀ t ∈ tuples, MapKey.pair t.1 t.2 ≠ k) :
    clookup (stage1 api s skip pr2 c tuples).1 k = clookup c k := by
  rw [stage1_eq]
  by_cases hpr2 : pr2 = []
  · rw [if_pos hpr2]
  · rw [if_neg hpr2]
    apply s1Resolve_fold_unchanged
    intro g hg _ t ht
    exact hk t (mem_partition_group skip pr2 tuples g t hg ht).1

theorem stage2_sub (api : WormsApi) (s : String) (skip : List String)
    (info : List (String × Nat)) (c : Cache) (u : List (String × String))
    (t : String × String) (ht : t ∈ (stage2 api s skip info c u).2) : t ∈ u := by
  rw [stage2_eq] at ht
  by_cases h1 : u = []
  · rwa [if_pos h1] at ht
  · rw [if_neg h1] at ht
    by_cases h2 : stage2AllTerms u = []
    · rwa [if_pos h2] at ht
    · rw [if_neg h2, stage2Assign, s2Assign_go_snd] at ht
      simp only [List.nil_append, List.mem_filter] at ht
      exact ht.1

theorem stage2_unchanged (api : WormsApi) (s : String) (skip : List String)
    (info : List (String × Nat)) (c : Cache) (u : List (String × String))
    (k : MapKey) (hk : ∀ t ∈ u, MapKey.pair t.1 t.2 ≠ k) :
    clookup (stage2 api s skip info c u).1 k = clookup c k := by
  rw [stage2_eq]
  by_cases h1 : u = []
  · rw [if_pos h1]
  · rw [if_neg h1]
    by_cases h2 : stage2AllTerms u = []
    · rw [if_pos h2]
    · rw [if_neg h2, stage2Assign]
      apply s2Assign_go_unchanged
      intro t ht he
      exact absurd he (hk t ht)

theorem results_cache_core_sentinel (api : WormsApi) (s : String)
    (skip : List String) (info : List (String × Nat)) (pr2 : List (String × Nat))
    (df : List Row) :
    clookup (results_cache_core api s skip info pr2 df) .trulyEmpty =
      some (sentinelDict s) := by
  simp only [results_cache_core]
  exact clookup_cacheInsert_self _ _ _

theorem results_cache_core_totality (api : WormsApi) (s : String)
    (skip : List String) (info : List (String × Nat)) (pr2 : List (String × Nat))
    (df : List Row) (v a : String) (hva : (v, a) ∈ uniqueTuples df) :
    (clookup (results_cache_core api s skip info pr2 df) (.pair v a)).isSome = true := by
  simp only [results_cache_core]
  rw [clookup_cacheInsert_ne _ _ (by simp)]
  by_cases hd : handledCase v = true
  · apply finalUnmatched_isSome
    apply stage2_isSome_mono
    apply stage1_isSome_mono
    have := fastPath_cached s (uniqueTuples df) [] [] v a hva hd
    rw [show fastPath s (uniqueTuples df) =
      (uniqueTuples df).foldl (fastPathStep s) ([], []) from rfl, this]
    rfl
  · have hrem : (v, a) ∈ (uniqueTuples df).filter
        (fun t => t ∉ (fastPath s (uniqueTuples df)).2) := by
      rw [List.mem_filter]
      refine ⟨hva, ?_⟩
      have hsnd : (fastPath s (uniqueTuples df)).2 =
          (uniqueTuples df).filter (fun t => handledCase t.1) := by
        rw [show fastPath s (uniqueTuples df) =
          (uniqueTuples df).foldl (fastPathStep s) ([], []) from rfl,
          fastPath_go_snd]
        rfl
      rw [hsnd]
      simp only [decide_eq_true_eq]
      intro hmem
      exact hd (List.mem_filter.mp hmem).2
    rcases stage1_totality api s skip pr2 _ _ (v, a) hrem with h1 | h1
    · exact finalUnmatched_isSome _ _ _ _ _ _ (stage2_isSome_mono _ _ _ _ _ _ _ h1)
    · rcases stage2_totality api s skip info _ _ (v, a) h1 with h2 | h2
      · exact finalUnmatched_isSome _ _ _ _ _ _ h2
      · rw [finalUnmatched_cached _ _ _ _ _ _ h2]
        rfl

theorem results_cache_core_cacheOK (api : WormsApi) (s : String)
    (skip : List String) (info : List (String × Nat)) (pr2 : List (String × Nat))
    (df : List Row) (hWF : WFApi api) :
    CacheOK (results_cache_core api s skip info pr2 df) := by
  simp only [results_cache_core]
  apply cacheOK_insert
  · apply finalUnmatched_cacheOK
    apply stage2_cacheOK _ _ _ _ _ _ hWF
    apply stage1_cacheOK _ _ _ _ _ _ hWF
    exact fastPath_cacheOK s _ [] [] cacheOK_nil
  · exact recordOK_incertaeSedisDict _ _ _

theorem mem_wrc_remaining (s : String) (uniq : List (String × String))
    (t : String × String) :
    t ∈ uniq.filter (fun t2 => t2 ∉ (fastPath s uniq).2) ↔
      t ∈ uniq ∧ handledCase t.1 = false := by
  have hsnd : (fastPath s uniq).2 = uniq.filter (fun t2 => handledCase t2.1) := by
    rw [show fastPath s uniq = uniq.foldl (fastPathStep s) ([], []) from rfl,
      fastPath_go_snd]
    rfl
  rw [List.mem_filter, hsnd]
  simp only [decide_eq_true_eq, List.mem_filter]
  constructor
  · rintro ⟨h1, h2⟩
    refine ⟨h1, ?_⟩
    cases hd : handledCase t.1
    · rfl
    · exact absurd ⟨h1, hd⟩ h2
  · rintro ⟨h1, h2⟩
    refine ⟨h1, fun hc => ?_⟩
    rw [h2] at hc
    cases hc.2

/-- A fast-path-handled tuple keeps its fast-path record in the final cache:
no later stage overwrites it. -/
theorem results_cache_core_handled (api : WormsApi) (s : String)
    (skip : List String) (info : List (String × Nat)) (pr2 : List (String × Nat))
    (df : List Row) (v a : String) (hva : (v, a) ∈ uniqueTuples df)
    (hd : handledCase v = true) :
    clookup (results_cache_core api s skip info pr2 df) (.pair v a) =
      some (fastRecord s v) := by
  simp only [results_cache_core]
  rw [clookup_cacheInsert_ne _ _ (by simp)]
  have hnotrem : ∀ t ∈ (uniqueTuples df).filter
      (fun t2 => t2 ∉ (fastPath s (uniqueTuples df)).2),
      MapKey.pair t.1 t.2 ≠ MapKey.pair v a := by
    intro t ht he
    obtain rfl := pairKey_inj t (v, a) he
    have := ((mem_wrc_remaining s (uniqueTuples df) (v, a)).mp ht).2
    rw [this] at hd
    cases hd
  rw [finalUnmatched_unchanged]
  · rw [stage2_unchanged]
    · rw [stage1_unchanged]
      · have := fastPath_cached s (uniqueTuples df) [] [] v a hva hd
        rw [show fastPath s (uniqueTuples df) =
          (uniqueTuples df).foldl (fastPathStep s) ([], []) from rfl]
        exact this
      · exact hnotrem
    · intro t ht
      exact hnotrem t (stage1_sub api s skip pr2 _ _ t ht)
  · intro t ht
    exact hnotrem t (stage1_sub api s skip pr2 _ _ t
      (stage2_sub api s skip info _ _ t ht))

/-- A tuple that is not fast-path handled, has no PR2 hit, and produces no
Stage-2 term sequence ends up with the `Failed_All_Stages_NoMatch` record,
whose `cleanedTaxonomy` falls back to the raw verbatim string. -/
theorem results_cache_core_failed_empty (api : WormsApi) (s : String)
    (skip : List String) (info : List (String × Nat)) (pr2 : List (String × Nat))
    (df : List Row) (v a : String) (hva : (v, a) ∈ uniqueTuples df)
    (hd : handledCase v = false) (hhit : pr2Hit skip pr2 (v, a) = none)
    (hterms : stage2Terms skip info v a = none) :
    clookup (results_cache_core api s skip info pr2 df) (.pair v a) =
      some (incertaeSedisDict s "Failed_All_Stages_NoMatch"
        (finalCleanedTaxonomy skip info v a)) := by
  simp only [results_cache_core]
  rw [clookup_cacheInsert_ne _ _ (by simp)]
  have hrem : (v, a) ∈ (uniqueTuples df).filter
      (fun t2 => t2 ∉ (fastPath s (uniqueTuples df)).2) :=
    (mem_wrc_remaining s (uniqueTuples df) (v, a)).mpr ⟨hva, hd⟩
  obtain ⟨h1mem, -⟩ := stage1_deferred api s skip pr2 _ _ (v, a) hrem hhit
  obtain ⟨h2mem, -⟩ := stage2_unmatched_of_terms_none api s skip info _ _ (v, a) h1mem hterms
  exact finalUnmatched_cached s skip info _ _ (v, a) h2mem

/-! ## Normalizer token properties -/

theorem mem_of_mem_dropWhile {α : Type} (p : α → Bool) (l : List α) (c : α)
    (h : c ∈ l.dropWhile p) : c ∈ l := by
  induction l with
  | nil => exact h
  | cons a as ih =>
    rw [List.dropWhile_cons] at h
    split at h
    · exact List.mem_cons_of_mem _ (ih h)
    · exact h

theorem mem_of_mem_pstripL (l : List Char) (c : Char) (h : c ∈ pstripL l) : c ∈ l := by
  unfold pstripL at h
  rw [List.mem_reverse] at h
  have h2 := mem_of_mem_dropWhile _ _ _ h
  rw [List.mem_reverse] at h2
  exact mem_of_mem_dropWhile _ _ _ h2

theorem mem_collapseWsGo (b : Bool) (l : List Char) (c : Char)
    (h : c ∈ collapseWsGo b l) : c = ' ' ∨ c ∈ l := by
  induction l generalizing b with
  | nil => cases h
  | cons a as ih =>
    unfold collapseWsGo at h
    split at h
    · split at h
      · rcases ih _ h with h2 | h2
        · exact Or.inl h2
        · exact Or.inr (List.mem_cons_of_mem _ h2)
      · rcases List.mem_cons.mp h with rfl | h2
        · exact Or.inl rfl
        · rcases ih _ h2 with h3 | h3
          · exact Or.inl h3
          · exact Or.inr (List.mem_cons_of_mem _ h3)
    · rcases List.mem_cons.mp h with rfl | h2
      · exact Or.inr (List.mem_cons_self _ _)
      · rcases ih _ h2 with h3 | h3
        · exact Or.inl h3
        · exact Or.inr (List.mem_cons_of_mem _ h3)

theorem mem_if_collapse (X : List Char) (c : Char)
    (h : c ∈ (if hasDoubleSpace X = true then collapseWs X else X)) :
    c = ' ' ∨ c ∈ X := by
  split at h
  · exact mem_collapseWsGo false X c h
  · exact Or.inr h

theorem mem_if_filter_digit (n1 : List Char) (c : Char)
    (h : c ∈ (if n1.any Char.isDigit = true then n1.filter (fun x => !x.isDigit) else n1)) :
    c.isDigit = false := by
  split at h
  · simpa using (List.mem_filter.mp h).2
  · rename_i hany
    have hall := List.any_eq_true.not.mp hany
    push_neg at hall
    simpa using hall c h

/-- Every character of a cleaned token is a non-digit. -/
theorem cleanName_no_digit (n : List Char) (c : Char) (hc : c ∈ cleanName n) :
    c.isDigit = false := by
  unfold cleanName at hc
  have hc3 := mem_of_mem_pstripL _ _ hc
  rcases mem_if_collapse _ _ hc3 with h2 | h2
  · rw [h2]
    rfl
  · exact mem_if_filter_digit _ _ h2

/-! ## Claim theorems -/

/-- C7 — Normalizer behaviour: `parse_semicolon_taxonomy` is a pure function
that replaces underscores/hyphens/slashes with spaces, splits on semicolons,
trims, drops empty and case-insensitive "unassigned" tokens, strips " sp."
and " spp.", removes digits, collapses whitespace runs, and drops tokens of
length ≤ 1; in particular it maps "Eukaryota;Metazoa_sp.2;" to exactly
["Eukaryota", "Metazoa"], and every output token has length > 1 and contains
no digit. -/
theorem C7_normalizer :
    parse_semicolon_taxonomy (some "Eukaryota;Metazoa_sp.2;") = ["Eukaryota", "Metazoa"] ∧
    parse_semicolon_taxonomy (some "Calanus spp.;Acartia sp.") = ["Calanus", "Acartia"] ∧
    parse_semicolon_taxonomy (some "a  b_c;Unassigned; ;x") = ["a b c"] ∧
    ∀ (s : Option String) (t : String), t ∈ parse_semicolon_taxonomy s →
      1 < t.length ∧ ∀ c ∈ t.data, c.isDigit = false := by
  refine ⟨by decide, by decide, by decide, ?_⟩
  intro s t ht
  cases s with
  | none => simp [parse_semicolon_taxonomy] at ht
  | some str =>
    have ht2 : t ∈ (if pstrip str = "" then [] else
        (splitSemi (str.data.map replSep)).filterMap (fun tok =>
          let name := pstripL tok
          if name = [] || (name.map Char.toLower) = ("unassigned".data) then none
          else
            let name2 := cleanName name
            if name2 ≠ [] ∧ name2.length > 1 then some (String.mk name2) else none)) := ht
    split at ht2
    · cases ht2
    · obtain ⟨tok, htok, hf⟩ := List.mem_filterMap.mp ht2
      simp only [] at hf
      split at hf
      · exact Option.noConfusion hf
      · split at hf
        · rename_i hguard
          injection hf with hf
          subst hf
          refine ⟨hguard.2, ?_⟩
          intro c hcmem
          exact cleanName_no_digit _ c hcmem
        · exact Option.noConfusion hf

theorem C7_normalizer_witness :
    1 < ("abc" : String).length ∧ ∀ c ∈ ("abc" : String).data, c.isDigit = false :=
  C7_normalizer.2.2.2 (some "x12;ab3c") "abc" (by decide)

/-- C2 counterexample — the claim says `"unassigned;"` maps to the single
shared sentinel `ResolutionKey`; in fact its `_map_key` is the per-assay
`(verbatim, assay)` tuple, not the sentinel (only missing values, strings
stripping to empty, and strings stripping case-insensitively to exactly
"unassigned" take the sentinel key). -/
theorem C2_sentinel_counterexample :
    mapKeyOf ⟨some "unassigned;", "assay_A"⟩ = MapKey.pair "unassigned;" "assay_A" ∧
    ¬ mapKeyOf ⟨some "unassigned;", "assay_A"⟩ = MapKey.trulyEmpty ∧
    mapKeyOf ⟨some "", "assay_A"⟩ = MapKey.trulyEmpty ∧
    mapKeyOf ⟨some "  ", "assay_A"⟩ = MapKey.trulyEmpty ∧
    mapKeyOf ⟨some "Unassigned", "assay_A"⟩ = MapKey.trulyEmpty := by decide

/-- C2 (amended) — Truly-empty detection: rows with `""`, `"  "` or
`"Unassigned"` map to the shared sentinel key and receive the sentinel record
(scientificName "incertae sedis", debug label
`incertae_sedis_truly_empty_fallback`); a row with `"unassigned;"` maps to
its own per-assay `(verbatim, assay)` key and receives the fast-path record
(scientificName "incertae sedis", debug label `incertae_sedis_unassigned`). -/
theorem C2_truly_empty_amended :
    (get_worms_match_for_dataframe wErrApi
      [⟨some "", "A"⟩, ⟨some "  ", "A"⟩, ⟨some "Unassigned", "A"⟩,
       ⟨some "unassigned;", "A"⟩, ⟨some "unassigned;", "B"⟩]
      ⟨"WoRMS", none, [], []⟩).map (fun p =>
        (mapKeyOf p.1, p.2.map (fun d => (dget d "scientificName", dget d "match_type_debug")))) =
    [(.trulyEmpty, some (some (some "incertae sedis"), some (some "incertae_sedis_truly_empty_fallback"))),
     (.trulyEmpty, some (some (some "incertae sedis"), some (some "incertae_sedis_truly_empty_fallback"))),
     (.trulyEmpty, some (some (some "incertae sedis"), some (some "incertae_sedis_truly_empty_fallback"))),
     (.pair "unassigned;" "A", some (some (some "incertae sedis"), some (some "incertae_sedis_unassigned"))),
     (.pair "unassigned;" "B", some (some (some "incertae sedis"), some (some "incertae_sedis_unassigned")))] := by
  decide

/-- C4 counterexample — for an assay in the skip set with `max_depth = 1`, a
one-term lineage is full-depth, its last term is dropped leaving nothing, and
the resulting record's `cleanedTaxonomy` is the raw verbatim string "Ba", not
the semicolon-join of the remaining (zero) terms (which would be ""). -/
theorem C4_truncation_counterexample :
    parse_semicolon_taxonomy (some "Ba") = ["Ba"] ∧
    maxDepthFor [("A", 1)] "A" ≤ (parse_semicolon_taxonomy (some "Ba")).length ∧
    (get_worms_match_for_dataframe wErrApi [⟨some "Ba", "A"⟩]
      ⟨"WoRMS", some ["A"], [], [("A", 1)]⟩).map (fun p =>
        p.2.map (fun d => (dget d "match_type_debug", dget d "cleanedTaxonomy"))) =
    [some (some (some "Failed_All_Stages_NoMatch"), some (some "Ba"))] ∧
    ¬ ("Ba" : String) = joinSemi (parse_semicolon_taxonomy (some "Ba")).dropLast := by
  decide

/-- C4 (amended) — Depth-truncation policy: for a key whose assay is in the
skip-species set and whose normalized lineage is full-depth (term count ≥ the
assay's max_depth), the last term is dropped before batch matching and, when
at least one term remains, cleanedTaxonomy is the semicolon-join of the
remaining terms; when nothing remains (a one-term lineage) the key skips
batch matching and cleanedTaxonomy falls back to the raw verbatim string.  A
lineage below max_depth is matched with all terms unchanged. -/
theorem C4_depth_truncation_amended (skip : List String) (info : List (String × Nat))
    (v a : String) :
    (a ∈ skip → maxDepthFor info a ≤ (parse_semicolon_taxonomy (some v)).length →
      2 ≤ (parse_semicolon_taxonomy (some v)).length →
      stage2Terms skip info v a = some (parse_semicolon_taxonomy (some v)).dropLast ∧
      finalCleanedTaxonomy skip info v a =
        joinSemi (parse_semicolon_taxonomy (some v)).dropLast) ∧
    (a ∈ skip → maxDepthFor info a ≤ (parse_semicolon_taxonomy (some v)).length →
      (parse_semicolon_taxonomy (some v)).length = 1 →
      stage2Terms skip info v a = none ∧ finalCleanedTaxonomy skip info v a = v) ∧
    ((parse_semicolon_taxonomy (some v)) ≠ [] →
      (parse_semicolon_taxonomy (some v)).length < maxDepthFor info a →
      stage2Terms skip info v a = some (parse_semicolon_taxonomy (some v)) ∧
      finalCleanedTaxonomy skip info v a = joinSemi (parse_semicolon_taxonomy (some v))) := by
  refine ⟨?_, ?_, ?_⟩
  · intro h1 h2 h3
    have hne : parse_semicolon_taxonomy (some v) ≠ [] := by
      intro h
      rw [h] at h3
      simp at h3
    have hdropne : (parse_semicolon_taxonomy (some v)).dropLast ≠ [] := by
      intro h
      have hlen := congrArg List.length h
      rw [List.length_dropLast] at hlen
      simp at hlen
      omega
    constructor
    · simp [stage2Terms, hne, h1, h2, hdropne]
    · simp [finalCleanedTaxonomy, hne, h1, h2, hdropne]
  · intro h1 h2 h3
    have hne : parse_semicolon_taxonomy (some v) ≠ [] := by
      intro h
      rw [h] at h3
      simp at h3
    have hdrop : (parse_semicolon_taxonomy (some v)).dropLast = [] := by
      apply List.eq_nil_of_length_eq_zero
      rw [List.length_dropLast, h3]
    constructor
    · simp [stage2Terms, hne, h1, h2, hdrop]
    · simp [finalCleanedTaxonomy, hne, h1, h2, hdrop]
  · intro hp hlt
    have hnotfull : ¬maxDepthFor info a ≤ (parse_semicolon_taxonomy (some v)).length :=
      not_le.mpr hlt
    constructor
    · simp [stage2Terms, hp, hnotfull]
    · simp [finalCleanedTaxonomy, hp, hnotfull]

theorem C4_depth_truncation_amended_witness :
    (stage2Terms ["A"] [("A", 2)] "Aa;Bb;Cc" "A" =
       some (parse_semicolon_taxonomy (some "Aa;Bb;Cc")).dropLast ∧
     finalCleanedTaxonomy ["A"] [("A", 2)] "Aa;Bb;Cc" "A" =
       joinSemi (parse_semicolon_taxonomy (some "Aa;Bb;Cc")).dropLast) ∧
    (stage2Terms ["A"] [("A", 1)] "Ba" "A" = none ∧
     finalCleanedTaxonomy ["A"] [("A", 1)] "Ba" "A" = "Ba") ∧
    (stage2Terms ["A"] [("A", 9)] "Aa;Bb" "A" =
       some (parse_semicolon_taxonomy (some "Aa;Bb")) ∧
     finalCleanedTaxonomy ["A"] [("A", 9)] "Aa;Bb" "A" =
       joinSemi (parse_semicolon_taxonomy (some "Aa;Bb"))) :=
  ⟨(C4_depth_truncation_amended ["A"] [("A", 2)] "Aa;Bb;Cc" "A").1
     (by decide) (by decide) (by decide),
   (C4_depth_truncation_amended ["A"] [("A", 1)] "Ba" "A").2.1
     (by decide) (by decide) (by decide),
   (C4_depth_truncation_amended ["A"] [("A", 9)] "Aa;Bb" "A").2.2
     (by decide) (by decide)⟩

theorem firstBatchHit_decomp (blk : BatchLookup) (l : List String) (hit : String × Dict)
    (h : firstBatchHit blk l = some hit) :
    ∃ l1 l2, l = l1 ++ hit.1 :: l2 ∧ (∀ x ∈ l1, blk x = none) ∧
      blk hit.1 = some hit.2 := by
  induction l with
  | nil => cases h
  | cons term rest ih =>
    cases hb : blk term with
    | some d =>
      rw [show firstBatchHit blk (term :: rest) = some (term, d) from by
        simp [firstBatchHit, hb]] at h
      injection h with h
      subst h
      exact ⟨[], rest, rfl, by simp, hb⟩
    | none =>
      rw [show firstBatchHit blk (term :: rest) = firstBatchHit blk rest from by
        simp [firstBatchHit, hb]] at h
      obtain ⟨l1, l2, heq, hnone, hhit⟩ := ih h
      refine ⟨term :: l1, l2, by rw [heq]; rfl, ?_, hhit⟩
      intro x hx
      rcases List.mem_cons.mp hx with rfl | hx2
      · exact hb
      · exact hnone x hx2

theorem stage2Val_eq (s : String) (skip : List String) (info : List (String × Nat))
    (blk : BatchLookup) (t : String × String) (p : List String) (hit : String × Dict)
    (hterms : stage2Terms skip info t.1 t.2 = some p)
    (hhit : firstBatchHit blk p.reverse = some hit) :
    stage2Val s skip info blk t =
      some (stage2Record s (if p ≠ [] then joinSemi p else t.1) hit) := by
  simp [stage2Val, hterms, hhit]

/-- C5 — Reverse-specificity match order: the Stage-2 loop caches, for a
tuple with (possibly truncated) term sequence scanned in reverse, the record
of the first term found with debug label prefix built from that term;
`firstBatchHit` provably returns the first table hit of its scan order; and
on terms A, B, C with only B in the table the hit is B. -/
theorem C5_reverse_specificity :
    (∀ (s : String) (skip : List String) (info : List (String × Nat))
       (blk : BatchLookup) (c : Cache) (u : List (String × String))
       (t : String × String) (p : List String) (hit : String × Dict),
       t ∈ u → stage2Terms skip info t.1 t.2 = some p →
       firstBatchHit blk p.reverse = some hit →
       clookup (stage2Assign s skip info blk c u).1 (.pair t.1 t.2) =
         some (stage2Record s (if p ≠ [] then joinSemi p else t.1) hit)) ∧
    (∀ (blk : BatchLookup) (l : List String) (hit : String × Dict),
       firstBatchHit blk l = some hit →
       ∃ l1 l2, l = l1 ++ hit.1 :: l2 ∧ (∀ x ∈ l1, blk x = none) ∧
         blk hit.1 = some hit.2) ∧
    (∀ dB : Dict,
       firstBatchHit (fun term => if term = "B" then some dB else none)
         (["A", "B", "C"].reverse) = some ("B", dB) ∧
       "Success_Batch_" ++ "B" = "Success_Batch_B") := by
  refine ⟨?_, firstBatchHit_decomp, ?_⟩
  · intro s skip info blk c u t p hit ht hterms hhit
    rw [stage2Assign]
    exact s2Assign_go_cached s skip info blk u c [] t _ ht
      (stage2Val_eq s skip info blk t p hit hterms hhit)
  · intro dB
    exact ⟨rfl, rfl⟩

theorem C5_reverse_specificity_witness :
    clookup (stage2Assign "W" [] [] wBlkB [] [("Aa;Bb;Cc", "X")]).1
        (.pair "Aa;Bb;Cc" "X") =
      some (stage2Record "W"
        (if parse_semicolon_taxonomy (some "Aa;Bb;Cc") ≠ [] then
          joinSemi (parse_semicolon_taxonomy (some "Aa;Bb;Cc")) else "Aa;Bb;Cc")
        ("Bb", [("scientificName", some "BbSci")])) :=
  C5_reverse_specificity.1 "W" [] [] wBlkB [] [("Aa;Bb;Cc", "X")] ("Aa;Bb;Cc", "X")
    (parse_semicolon_taxonomy (some "Aa;Bb;Cc"))
    ("Bb", [("scientificName", some "BbSci")]) (by decide) (by decide) (by decide)

/-- C6 — Batch-failure isolation: a batch whose remote call raises
contributes zero entries to the term lookup table; dropping such a batch
changes nothing, so every other batch's entries survive; and the sequential
fallback path builds exactly the same table as the parallel path.  (The model
is total: no exception escapes the run.) -/
theorem C6_batch_failure_isolation :
    (∀ (api : WormsApi) (chunk : List String),
       api.aphiaRecordsByMatchNames chunk = .error () →
       get_worms_batch_worker api chunk = []) ∧
    (∀ (api : WormsApi) (chunks1 chunks2 : List (List String)) (bad : List String),
       api.aphiaRecordsByMatchNames bad = .error () →
       ∀ term, buildBatchLookup api (chunks1 ++ bad :: chunks2) term =
         buildBatchLookup api (chunks1 ++ chunks2) term) ∧
    (∀ (api : WormsApi) (chunks : List (List String)) (term : String),
       buildBatchLookupSeq api chunks term = buildBatchLookup api chunks term) := by
  refine ⟨?_, ?_, ?_⟩
  · intro api chunk h
    simp [get_worms_batch_worker, h]
  · intro api chunks1 chunks2 bad h term
    rw [buildBatchLookup_append_error api chunks1 chunks2 bad h]
  · intro api chunks term
    rw [buildBatchLookupSeq_eq]

theorem C6_batch_failure_isolation_witness :
    get_worms_batch_worker wFlakyApi ["Xx"] = [] ∧
    buildBatchLookup wFlakyApi [["Gg"], ["Xx"]] "Gg" =
      buildBatchLookup wFlakyApi [["Gg"]] "Gg" ∧
    buildBatchLookupSeq wFlakyApi [["Gg"], ["Xx"]] "Gg" =
      buildBatchLookup wFlakyApi [["Gg"], ["Xx"]] "Gg" :=
  ⟨C6_batch_failure_isolation.1 wFlakyApi ["Xx"] rfl,
   C6_batch_failure_isolation.2.1 wFlakyApi [["Gg"]] [] ["Xx"] rfl "Gg",
   C6_batch_failure_isolation.2.2 wFlakyApi [["Gg"], ["Xx"]] "Gg"⟩

/-- C8 — Kingdom-only shortcut: a key whose cleaned lineage case-insensitively
equals exactly "eukaryota" gets the incertae-sedis record with debug label
`incertae_sedis_simple_case_<cleaned value>` in the final cache, for every
remote service and PR2 dictionary (so without any remote call); a key the
fast path does not handle (such as "Bacteria") is left uncached by the fast
path and proceeds in the remaining-tuples list to the Prematch/Batch
stages. -/
theorem C8_kingdom_shortcut (api : WormsApi) (s : String) (skip : List String)
    (info : List (String × Nat)) (pr2 : List (String × Nat)) (df : List Row)
    (v a : String) (hva : (v, a) ∈ uniqueTuples df) :
    (¬isTrulyEmptyCase v = true → lowerStr (cleanedVerbatim v) = "eukaryota" →
      clookup (results_cache_core api s skip info pr2 df) (.pair v a) =
        some (incertaeSedisDict s ("incertae_sedis_simple_case_" ++ cleanedVerbatim v)
          (cleanedVerbatim v))) ∧
    (handledCase v = false →
      (v, a) ∈ (uniqueTuples df).filter (fun t => t ∉ (fastPath s (uniqueTuples df)).2) ∧
      clookup (fastPath s (uniqueTuples df)).1 (.pair v a) = none) := by
  constructor
  · intro h1 h2
    have hd : handledCase v = true := by
      simp [handledCase, h2]
    rw [results_cache_core_handled api s skip info pr2 df v a hva hd,
      show fastRecord s v = incertaeSedisDict s
        ("incertae_sedis_simple_case_" ++ cleanedVerbatim v) (cleanedVerbatim v) from by
          simp [fastRecord, h1]]
  · intro hd
    refine ⟨(mem_wrc_remaining s (uniqueTuples df) (v, a)).mpr ⟨hva, hd⟩, ?_⟩
    rw [show fastPath s (uniqueTuples df) =
      (uniqueTuples df).foldl (fastPathStep s) ([], []) from rfl]
    rw [fastPath_unchanged]
    · rfl
    · intro t ht he
      obtain rfl := pairKey_inj t (v, a) he
      exact hd

theorem C8_kingdom_shortcut_witness :
    clookup (results_cache_core wErrApi "WoRMS" [] [] [] wDf8) (.pair "eUkaryota" "A") =
      some (incertaeSedisDict "WoRMS"
        ("incertae_sedis_simple_case_" ++ cleanedVerbatim "eUkaryota")
        (cleanedVerbatim "eUkaryota")) ∧
    ((("Bacteria", "A") : String × String) ∈
      (uniqueTuples wDf8).filter (fun t => t ∉ (fastPath "WoRMS" (uniqueTuples wDf8)).2) ∧
     clookup (fastPath "WoRMS" (uniqueTuples wDf8)).1 (.pair "Bacteria" "A") = none) :=
  ⟨(C8_kingdom_shortcut wErrApi "WoRMS" [] [] [] wDf8 "eUkaryota" "A" (by decide)).1
     (by decide) (by decide),
   (C8_kingdom_shortcut wErrApi "WoRMS" [] [] [] wDf8 "Bacteria" "A" (by decide)).2
     (by decide)⟩

/-- C9 — Prematch deferral and fallthrough: a tuple whose assay is in the
skip-species set leaves Stage 1 unmatched with the cache untouched at its
key, whatever the PR2 dictionary holds (no dictionary lookup affects it); and
a tuple whose PR2 hit resolves with an exception, a falsy record, or a
non-accepted record likewise falls through to the Batch Matcher uncached. -/
theorem C9_prematch_deferral (api : WormsApi) (s : String) (skip : List String)
    (pr2 : List (String × Nat)) (c : Cache) (tuples : List (String × String))
    (t : String × String) :
    (t ∈ tuples → t.2 ∈ skip →
      t ∈ (stage1 api s skip pr2 c tuples).2 ∧
      clookup (stage1 api s skip pr2 c tuples).1 (.pair t.1 t.2) =
        clookup c (.pair t.1 t.2)) ∧
    (∀ aid, t ∈ tuples → pr2Hit skip pr2 t = some aid →
      (api.aphiaRecordByAphiaID aid = .error () ∨
       api.aphiaRecordByAphiaID aid = .ok none ∨
       ∃ r, api.aphiaRecordByAphiaID aid = .ok (some r) ∧ ¬r.status = some "accepted") →
      t ∈ (stage1 api s skip pr2 c tuples).2 ∧
      clookup (stage1 api s skip pr2 c tuples).1 (.pair t.1 t.2) =
        clookup c (.pair t.1 t.2)) := by
  constructor
  · intro ht hskip
    exact stage1_skip_deferred api s skip pr2 c tuples t ht hskip
  · intro aid ht hhit hfailcase
    have hfail : ¬(dget (get_worms_classification_by_id_worker api aid s)
        "scientificName").isSome = true := by
      intro hs
      obtain ⟨r, hres, hacc⟩ := (worker_sci_isSome_iff api aid s).mp hs
      rcases hfailcase with h | h | ⟨r2, hr2, hnacc⟩
      · rw [h] at hres
        cases hres
      · rw [h] at hres
        cases hres
      · rw [hr2] at hres
        injection hres with hres
        injection hres with hres
        subst hres
        exact hnacc hacc
    exact stage1_fallthrough api s skip pr2 c tuples t aid ht hhit hfail

theorem C9_prematch_deferral_witness :
    (("Cc", "S") ∈
       (stage1 wUnaccApi "W" ["S"] [("Bb", 7)] [] [("Cc", "S"), ("Aa;Bb", "X")]).2 ∧
     clookup (stage1 wUnaccApi "W" ["S"] [("Bb", 7)] []
         [("Cc", "S"), ("Aa;Bb", "X")]).1 (.pair "Cc" "S") =
       clookup [] (.pair "Cc" "S")) ∧
    (("Aa;Bb", "X") ∈
       (stage1 wUnaccApi "W" ["S"] [("Bb", 7)] [] [("Cc", "S"), ("Aa;Bb", "X")]).2 ∧
     clookup (stage1 wUnaccApi "W" ["S"] [("Bb", 7)] []
         [("Cc", "S"), ("Aa;Bb", "X")]).1 (.pair "Aa;Bb" "X") =
       clookup [] (.pair "Aa;Bb" "X")) :=
  ⟨(C9_prematch_deferral wUnaccApi "W" ["S"] [("Bb", 7)] []
      [("Cc", "S"), ("Aa;Bb", "X")] ("Cc", "S")).1 (by decide) (by decide),
   (C9_prematch_deferral wUnaccApi "W" ["S"] [("Bb", 7)] []
      [("Cc", "S"), ("Aa;Bb", "X")] ("Aa;Bb", "X")).2 7 (by decide) (by decide)
     (Or.inr (Or.inr ⟨wUnaccRec, rfl, by decide⟩))⟩

/-- C10 — A non-truly-empty key whose normalized term sequence is empty
bypasses both matching stages (its record is independent of the remote
service and of the PR2 dictionary, both universally quantified here) and
receives the `Failed_All_Stages_NoMatch` incertae-sedis record whose
`cleanedTaxonomy` is the raw verbatim string, not the empty joined
sequence. -/
theorem C10_empty_terms_fallback (api : WormsApi) (s : String) (skip : List String)
    (info : List (String × Nat)) (pr2 : List (String × Nat)) (df : List Row)
    (v a : String) (hva : (v, a) ∈ uniqueTuples df)
    (hd : handledCase v = false)
    (hp : parse_semicolon_taxonomy (some v) = []) :
    clookup (results_cache_core api s skip info pr2 df) (.pair v a) =
      some (incertaeSedisDict s "Failed_All_Stages_NoMatch" v) ∧
    dget (incertaeSedisDict s "Failed_All_Stages_NoMatch" v) "cleanedTaxonomy" =
      some (some v) := by
  have hhit : pr2Hit skip pr2 (v, a) = none := by
    unfold pr2Hit
    split
    · rfl
    · have hp2 : parse_semicolon_taxonomy (some (v, a).1) = [] := hp
      rw [hp2]
      rfl
  have hterms : stage2Terms skip info v a = none := by
    simp [stage2Terms, hp]
  have hcleaned : finalCleanedTaxonomy skip info v a = v := by
    simp [finalCleanedTaxonomy, hp]
  refine ⟨?_, dget_incertae_cleaned s _ v⟩
  rw [results_cache_core_failed_empty api s skip info pr2 df v a hva hd hhit hterms,
    hcleaned]

theorem C10_empty_terms_fallback_witness :
    clookup (results_cache_core wErrApi "WoRMS" [] [] [("x", 5)] wDf10)
        (.pair "1;2" "A") =
      some (incertaeSedisDict "WoRMS" "Failed_All_Stages_NoMatch" "1;2") ∧
    dget (incertaeSedisDict "WoRMS" "Failed_All_Stages_NoMatch" "1;2")
        "cleanedTaxonomy" = some (some "1;2") :=
  C10_empty_terms_fallback wErrApi "WoRMS" [] [] [("x", 5)] wDf10 "1;2" "A"
    (by decide) (by decide) (by decide)

theorem mapKeyOf_congr (r r2 : Row)
    (h1 : r.verbatimIdentification = r2.verbatimIdentification)
    (h2 : r.assay_name = r2.assay_name) : mapKeyOf r = mapKeyOf r2 := by
  obtain ⟨vb, an⟩ := r
  obtain ⟨vb2, an2⟩ := r2
  have h1b : vb = vb2 := h1
  have h2b : an = an2 := h2
  subst h1b
  subst h2b
  rfl

/-- C3 — Deduplication and cache consistency: the list of unique
`(verbatimIdentification, assay_name)` tuples the engine resolves contains
each pair at most once (so each distinct key is resolved once), and any two
output rows with byte-identical verbatim and assay fields carry identical
ClassificationRecords. -/
theorem C3_deduplication (api : WormsApi) (df : List Row) (params : Params) :
    (uniqueTuples df).Nodup ∧
    (∀ p q, p ∈ get_worms_match_for_dataframe api df params →
       q ∈ get_worms_match_for_dataframe api df params →
       p.1.verbatimIdentification = q.1.verbatimIdentification →
       p.1.assay_name = q.1.assay_name → p.2 = q.2) := by
  refine ⟨nodup_dedupList _, ?_⟩
  intro p q hp hq h1 h2
  obtain ⟨r, hr, rfl⟩ := List.mem_map.mp hp
  obtain ⟨r2, hr2, rfl⟩ := List.mem_map.mp hq
  show clookup _ (mapKeyOf r) = clookup _ (mapKeyOf r2)
  rw [mapKeyOf_congr r r2 h1 h2]

theorem C3_deduplication_witness :
    (uniqueTuples wDf3).Nodup ∧
    ((⟨some "Aa;Bb", "A"⟩ : Row),
       clookup (worms_results_cache wErrApi wDf3 ⟨"WoRMS", none, [], []⟩)
         (mapKeyOf ⟨some "Aa;Bb", "A"⟩)).2 =
      ((⟨some "Aa;Bb", "A"⟩ : Row),
       clookup (worms_results_cache wErrApi wDf3 ⟨"WoRMS", none, [], []⟩)
         (mapKeyOf ⟨some "Aa;Bb", "A"⟩)).2 :=
  ⟨(C3_deduplication wErrApi wDf3 ⟨"WoRMS", none, [], []⟩).1,
   (C3_deduplication wErrApi wDf3 ⟨"WoRMS", none, [], []⟩).2 _ _
     (by decide) (by decide) (by decide) (by decide)⟩

/-- C1 — Totality of assembly: for a well-behaved remote service, every row
of the dataframe (whatever its verbatimIdentification and assay_name) comes
back from `get_worms_match_for_dataframe` carrying a complete record: all
seven standard rank keys are present (possibly null) and `scientificName` is
present and non-null. -/
theorem C1_totality_of_assembly (api : WormsApi) (df : List Row) (params : Params)
    (hWF : WFApi api) :
    ∀ p ∈ get_worms_match_for_dataframe api df params,
      ∃ d, p.2 = some d ∧ (∃ sn, dget d "scientificName" = some (some sn)) ∧
        ∀ rk ∈ DWC_RANKS_STD, (dget d rk).isSome = true := by
  intro p hp
  obtain ⟨r, hr, rfl⟩ := List.mem_map.mp hp
  have key : ∃ d, clookup (results_cache_core api params.taxonomic_api_source
      (params.assays_to_skip_species_match.getD []) params.assay_rank_info
      params.pr2_worms_dict df) (mapKeyOf r) = some d ∧
      (∃ sn, dget d "scientificName" = some (some sn)) ∧
      ∀ rk ∈ DWC_RANKS_STD, (dget d rk).isSome = true := by
    cases hk : mapKeyOf r with
    | trulyEmpty =>
      exact ⟨sentinelDict params.taxonomic_api_source,
        results_cache_core_sentinel api _ _ _ _ df,
        recordOK_incertaeSedisDict _ "incertae_sedis_truly_empty_fallback" ""⟩
    | pair v a =>
      obtain ⟨hv, ha, hm⟩ := mapKeyOf_eq_pair r v a hk
      have hva : (v, a) ∈ uniqueTuples df := by
        have := mem_uniqueTuples df r v hr hv hm
        rwa [ha] at this
      have hs := results_cache_core_totality api params.taxonomic_api_source
        (params.assays_to_skip_species_match.getD []) params.assay_rank_info
        params.pr2_worms_dict df v a hva
      obtain ⟨d, hd⟩ := Option.isSome_iff_exists.mp hs
      exact ⟨d, hd, results_cache_core_cacheOK api params.taxonomic_api_source
        (params.assays_to_skip_species_match.getD []) params.assay_rank_info
        params.pr2_worms_dict df hWF _ _ hd⟩
  exact key

theorem C1_totality_of_assembly_witness :
    ∃ p ∈ get_worms_match_for_dataframe wErrApi wDf1 ⟨"WoRMS", none, [], []⟩,
      ∃ d, p.2 = some d ∧ (∃ sn, dget d "scientificName" = some (some sn)) ∧
        ∀ rk ∈ DWC_RANKS_STD, (dget d rk).isSome = true := by
  have hWF : WFApi wErrApi :=
    ⟨fun aid r h1 _ => Except.noConfusion h1, fun chunk raw l m h1 _ _ _ => Except.noConfusion h1⟩
  have hmem : ((⟨some "Aa;Bb", "X"⟩ : Row),
      clookup (worms_results_cache wErrApi wDf1 ⟨"WoRMS", none, [], []⟩)
        (mapKeyOf ⟨some "Aa;Bb", "X"⟩)) ∈
      get_worms_match_for_dataframe wErrApi wDf1 ⟨"WoRMS", none, [], []⟩ :=
    List.mem_map_of_mem _ (List.mem_singleton_self _)
  exact ⟨_, hmem, C1_totality_of_assembly wErrApi wDf1 ⟨"WoRMS", none, [], []⟩ hWF _ hmem⟩
